import Mathlib

/-!
# Verification of the usage-export metering processor

Shallow embedding of `src/metering_processor.py` (legacy variant) and
`src/src/metering_processor.py` (maintained variant) from the
usage-export-clazar recipe, together with proofs about the claims of the
specification.

Python dictionaries are modelled as insertion-ordered association lists
(`d[k] = v` updates the first binding in place, otherwise appends; `del`
removes the binding).  Timestamps written by the code (`last_updated`,
`last_retry_time`) are threaded in as opaque `Nat` parameters.  Network
responses from the Clazar API are supplied by oracles, one response per
(contract, attempt).
-/

namespace Metering

/-- Insertion-ordered association list standing for a Python `dict`. -/
abbrev Dict (α β : Type) := List (α × β)

/-- `d.get(k)` / `k in d` lookup: first binding for `k`. -/
def dget {α β : Type} [DecidableEq α] : Dict α β → α → Option β
  | [], _ => none
  | (k, v) :: rest, key => if k = key then some v else dget rest key

/-- `d[k] = v`: replace the first binding of `k` in place, else append. -/
def dset {α β : Type} [DecidableEq α] : Dict α β → α → β → Dict α β
  | [], key, val => [(key, val)]
  | (k, v) :: rest, key, val =>
    if k = key then (key, val) :: rest else (k, v) :: dset rest key val

/-- `del d[k]`: drop the binding(s) for `k`. -/
def ddel {α β : Type} [DecidableEq α] : Dict α β → α → Dict α β
  | [], _ => []
  | (k, v) :: rest, key => if k = key then ddel rest key else (k, v) :: ddel rest key

/-! ## Decimal printing and parsing of month keys

`get_month_key` formats `f"{year:04d}-{month:02d}"`; `get_last_processed_month`
parses it back with `map(int, s.split('-'))`.  We implement both over `List
Char` so the round trip is provable. -/

/-- Decimal digits, most significant first, by structural fuel recursion
(`fuel` bounds the number of divisions; callers pass `n + 1`). -/
def natDigitsAux : Nat → Nat → List Char
  | 0, _ => []
  | fuel + 1, n =>
    if n < 10 then [Char.ofNat (48 + n)]
    else natDigitsAux fuel (n / 10) ++ [Char.ofNat (48 + n % 10)]

/-- Decimal digits of `n`, most significant first (`str(n)` for `n : Nat`). -/
def natDigits (n : Nat) : List Char := natDigitsAux (n + 1) n

/-- Left-pad with `'0'` to width `w` (`f"{n:0wd}"`). -/
def padZero (w : Nat) (l : List Char) : List Char :=
  List.replicate (w - l.length) '0' ++ l

/-- `f"{year:04d}-{month:02d}"` as a character list. -/
def monthKeyChars (year month : Nat) : List Char :=
  padZero 4 (natDigits year) ++ '-' :: padZero 2 (natDigits month)

/-- `get_month_key(year, month)`. -/
def getMonthKey (year month : Nat) : String :=
  String.mk (monthKeyChars year month)

/-- Is `c` a decimal digit? -/
def isDigitChar (c : Char) : Bool :=
  48 ≤ c.toNat && c.toNat ≤ 57

/-- `int(s)` on a character list: all digits, non-empty. -/
def parseDigits (l : List Char) : Option Nat :=
  if l ≠ [] ∧ l.all isDigitChar then
    some (l.foldl (fun a c => a * 10 + (c.toNat - 48)) 0)
  else none

/-- `s.split(sep)` on character lists. -/
def splitChar (sep : Char) : List Char → List (List Char)
  | [] => [[]]
  | c :: rest =>
    let r := splitChar sep rest
    if c = sep then [] :: r
    else
      match r with
      | [] => [[c]]
      | h :: t => (c :: h) :: t

/-- `year, month = map(int, s.split('-'))` with `ValueError` as `none`
(wrong number of parts, or a part that is not an unsigned decimal). -/
def parseMonthKey (s : String) : Option (Nat × Nat) :=
  match splitChar '-' s.data with
  | [a, b] =>
    match parseDigits a, parseDigits b with
    | some y, some m => some (y, m)
    | _, _ => none
  | _ => none

/-- `get_service_key(service_name, environment_type, plan_id)`. -/
def getServiceKey (serviceName environmentType planId : String) : String :=
  serviceName ++ ":" ++ environmentType ++ ":" ++ planId

/-! ## Data model

The persisted state document is
`{service_key: {last_processed_month, success_contracts: {month: [id]},
error_contracts: {month: [entry]}, last_updated}}`.  A service key that is
absent behaves exactly like one mapped to an all-empty sub-document (every
reader guards with `in` before indexing), so sub-documents are records with
empty defaults. -/

/-- One element of a `{"request": [...]}` metering payload. -/
structure MeteringRecord where
  cloud : String
  contract_id : String
  dimension : String
  start_time : String
  end_time : String
  /-- serialized as `str(int(quantity))`; kept as the integer -/
  quantity : Int
deriving Repr, DecidableEq

/-- A `{"request": records}` payload attached to an error entry.  As a Python
dict it always owns the `"request"` key, hence is always truthy. -/
structure Payload where
  request : List MeteringRecord
deriving Repr, DecidableEq

/-- An entry of `error_contracts[month]`.  Optional fields model dict keys the
writing code only sets conditionally (`if code: ...`); `retry_count` is read
with `.get('retry_count', 0)` and may be absent in entries written by the
legacy script.  `last_retry_time` is an opaque timestamp. -/
structure ErrorEntry where
  contract_id : String
  errors : List String
  retry_count : Option Nat
  last_retry_time : Option Nat
  code : Option String
  message : Option String
  payload : Option Payload
deriving Repr, DecidableEq

/-- The per-service sub-document of the state file. -/
structure ServiceState where
  last_processed_month : Option String
  success_contracts : Dict String (List String)
  error_contracts : Dict String (List ErrorEntry)
  last_updated : Option Nat
deriving Repr, DecidableEq

/-- Sub-document created by `state[service_key] = {}`. -/
def ServiceState.empty : ServiceState := ⟨none, [], [], none⟩

/-- The whole state document (`load_state` / `save_state` round trips it). -/
abbrev PState := Dict String ServiceState

/-- `state[service_key]`, defaulting to a fresh `{}`. -/
def getService (s : PState) (serviceKey : String) : ServiceState :=
  (dget s serviceKey).getD ServiceState.empty

/-- Python truthiness of an optional string (`None` and `""` are falsy). -/
def truthyStr : Option String → Bool
  | none => false
  | some s => !s.data.isEmpty

/-- `is_contract_month_processed`: the contract has either a success or an
error record for the month. -/
def isContractMonthProcessed (s : PState) (serviceKey monthKey contractId : String) : Bool :=
  match dget s serviceKey with
  | none => false
  | some svc =>
    (match dget svc.success_contracts monthKey with
     | some lst => contractId ∈ lst
     | none => false) ||
    (match dget svc.error_contracts monthKey with
     | some lst => lst.any (fun e => e.contract_id = contractId)
     | none => false)

/-- `mark_contract_month_processed`: append the contract to the month's
success list unless already present; refresh `last_updated`. -/
def markContractMonthProcessed (s : PState) (serviceKey monthKey contractId : String)
    (now : Nat) : PState :=
  let svc := getService s serviceKey
  let lst := (dget svc.success_contracts monthKey).getD []
  let lst' := if contractId ∈ lst then lst else lst ++ [contractId]
  dset s serviceKey
    { svc with success_contracts := dset svc.success_contracts monthKey lst',
               last_updated := some now }

/-- Replace the first element satisfying `p` by its image under `f` (the
Python code mutates the first matching error entry in place). -/
def updateFirst {α : Type} (p : α → Bool) (f : α → α) : List α → List α
  | [] => []
  | x :: xs => if p x then f x :: xs else x :: updateFirst p f xs

/-- `mark_contract_month_error`: update the first existing entry for the
contract (append messages; overwrite `code`/`message`/`payload` only when the
new value is truthy; always replace `retry_count`), else append a new entry. -/
def markContractMonthError (s : PState) (serviceKey monthKey contractId : String)
    (errors : List String) (code message : Option String) (payload : Option Payload)
    (retryCount : Nat) (now : Nat) : PState :=
  let svc := getService s serviceKey
  let lst := (dget svc.error_contracts monthKey).getD []
  let lst' :=
    if lst.any (fun e => e.contract_id = contractId) then
      updateFirst (fun e => e.contract_id = contractId)
        (fun e =>
          { e with errors := e.errors ++ errors,
                   code := if truthyStr code then code else e.code,
                   message := if truthyStr message then message else e.message,
                   payload := if payload.isSome then payload else e.payload,
                   retry_count := some retryCount,
                   last_retry_time := some now }) lst
    else
      lst ++ [{ contract_id := contractId, errors := errors,
                retry_count := some retryCount, last_retry_time := some now,
                code := if truthyStr code then code else none,
                message := if truthyStr message then message else none,
                payload := payload }]
  dset s serviceKey
    { svc with error_contracts := dset svc.error_contracts monthKey lst',
               last_updated := some now }

/-- `get_error_contracts_for_retry`: walk the month's error entries, keeping
those with `retry_count` (default 0) strictly below `max_retries`. -/
def getErrorContractsForRetry (s : PState) (serviceKey monthKey : String)
    (maxRetries : Nat) : List ErrorEntry :=
  match dget s serviceKey with
  | none => []
  | some svc =>
    match dget svc.error_contracts monthKey with
    | none => []
    | some lst => retryScan maxRetries lst
where
  /-- the accumulation loop `for entry: if entry.get('retry_count', 0) <
  max_retries: retry_contracts.append(entry)` -/
  retryScan (maxRetries : Nat) : List ErrorEntry → List ErrorEntry
    | [] => []
    | e :: rest =>
      if e.retry_count.getD 0 < maxRetries then e :: retryScan maxRetries rest
      else retryScan maxRetries rest

/-- `remove_error_contract`: drop the contract's entries from the month's
error list; delete the month key if the list becomes empty.  A state without
that service/month is returned unchanged (no write happens). -/
def removeErrorContract (s : PState) (serviceKey monthKey contractId : String)
    (now : Nat) : PState :=
  match dget s serviceKey with
  | none => s
  | some svc =>
    match dget svc.error_contracts monthKey with
    | none => s
    | some lst =>
      let lst' := lst.filter (fun e => !(e.contract_id = contractId : Bool))
      let ec := if lst'.isEmpty then ddel svc.error_contracts monthKey
                else dset svc.error_contracts monthKey lst'
      dset s serviceKey { svc with error_contracts := ec, last_updated := some now }

/-- `get_last_processed_month`: read and parse the `YYYY-MM` cursor; absent,
empty or unparseable values yield `None`. -/
def getLastProcessedMonth (s : PState) (serviceKey : String) : Option (Nat × Nat) :=
  match dget s serviceKey with
  | none => none
  | some svc =>
    match svc.last_processed_month with
    | none => none
    | some str => if str.data.isEmpty then none else parseMonthKey str

/-- `update_last_processed_month`: persist the month key as the new cursor. -/
def updateLastProcessedMonth (s : PState) (serviceKey : String) (year month : Nat)
    (now : Nat) : PState :=
  let svc := getService s serviceKey
  dset s serviceKey
    { svc with last_processed_month := some (getMonthKey year month),
               last_updated := some now }

/-! ## Watermark: latest month with complete usage data -/

/-- The parsed `last_processed_to` timestamp (`'%Y-%m-%dT%H:%M:%SZ'`). -/
structure Timestamp where
  year : Nat
  month : Nat
  day : Nat
  hour : Nat
  minute : Nat
  second : Nat
deriving Repr, DecidableEq

/-- Per-service entry of `omnistrate-metering/last_success_export.json`.
`none` models an absent/empty `last_processed_to` value or a `strptime`
failure (both return `None` in the source). -/
structure UsageExportEntry where
  last_processed_to : Option Timestamp
deriving Repr, DecidableEq

/-- The usage-data-completeness state document. -/
abbrev UsageState := Dict String UsageExportEntry

/-- Gregorian leap year (as `calendar.isleap`). -/
def isLeapYear (y : Nat) : Bool :=
  (y % 4 == 0 && y % 100 != 0) || y % 400 == 0

/-- `calendar.monthrange(y, m)[1]`: number of days of the month.  Only ever
called with a month field parsed from a real date, i.e. `1 ≤ m ≤ 12`. -/
def daysInMonth (y m : Nat) : Nat :=
  if m = 2 then (if isLeapYear y then 29 else 28)
  else if m = 4 ∨ m = 6 ∨ m = 9 ∨ m = 11 then 30
  else 31

/-- `get_latest_month_with_complete_usage_data`: the timestamp's month if it
points at the last day of a month with minute 59, otherwise the previous
month; `None` when the state is empty or the entry is missing/unreadable. -/
def getLatestMonthWithCompleteUsageData (u : UsageState) (serviceKey : String) :
    Option (Nat × Nat) :=
  if u.isEmpty then none
  else
    match dget u serviceKey with
    | none => none
    | some entry =>
      match entry.last_processed_to with
      | none => none
      | some ts =>
        let lastDay := daysInMonth ts.year ts.month
        if ts.day ≠ lastDay ∨ ts.minute ≠ 59 then
          if ts.month = 1 then some (ts.year - 1, 12) else some (ts.year, ts.month - 1)
        else some (ts.year, ts.month)

/-- `get_next_month_to_process`: default start when no cursor, else the
calendar successor of the cursor; `None` when the watermark is unknown or the
candidate lies beyond it.  Callers always pass a concrete default start. -/
def getNextMonthToProcess (s : PState) (u : UsageState) (serviceKey : String)
    (defaultStartMonth : Nat × Nat) : Option (Nat × Nat) :=
  let lastProcessed := getLastProcessedMonth s serviceKey
  match getLatestMonthWithCompleteUsageData u serviceKey with
  | none => none
  | some latest =>
    let next :=
      match lastProcessed with
      | none => defaultStartMonth
      | some (year, month) => if month = 12 then (year + 1, 1) else (year, month + 1)
    if next.1 > latest.1 ∨ (next.1 = latest.1 ∧ next.2 > latest.2) then none
    else some next

/-! ## Aggregation -/

/-- A raw usage record.  `externalPayerId` / `dimension` keep Python's
absent-key (`none`) versus present value distinction; `value` is
`record.get('value', 0)` coerced through `int(...)`. -/
structure UsageRecord where
  externalPayerId : Option String
  dimension : Option String
  value : Int
deriving Repr, DecidableEq

/-- `aggregate_usage_data`: `defaultdict(int)` summation keyed by
`(externalPayerId, dimension)`; records with a falsy payer or dimension are
skipped. -/
def aggregateUsageData (records : List UsageRecord) : Dict (String × String) Int :=
  records.foldl
    (fun d r =>
      if truthyStr r.externalPayerId ∧ truthyStr r.dimension then
        let key := ((r.externalPayerId.getD ""), (r.dimension.getD ""))
        dset d key ((dget d key).getD 0 + r.value)
      else d)
    []

/-! ## Custom-dimension transformation -/

/-- The three dimension values exposed to a formula by `eval_context`
(each defaulting to 0). -/
structure EvalContext where
  memory_byte_hours : Int
  storage_allocated_byte_hours : Int
  cpu_core_hours : Int
deriving Repr, DecidableEq

/-- Build the evaluation context from a contract's dimension dict. -/
def evalContext (dims : Dict String Int) : EvalContext :=
  ⟨(dget dims "memory_byte_hours").getD 0,
   (dget dims "storage_allocated_byte_hours").getD 0,
   (dget dims "cpu_core_hours").getD 0⟩

/-- Oracle for `eval(formula, eval_context)`: `error` covers a raised
exception as well as a result that is not a number (the code's
`isinstance` check turns the latter into a raised `ValueError`); the
negativity check on a numeric result stays in the embedded code. -/
abbrev EvalOracle := String → EvalContext → Except String Int

/-- Group `(contract, dimension) ↦ value` data by contract
(`contract_data = defaultdict(dict)`). -/
def groupByContract (aggregated : Dict (String × String) Int) :
    Dict String (Dict String Int) :=
  aggregated.foldl
    (fun d kv => dset d kv.1.1 (dset ((dget d kv.1.1).getD []) kv.1.2 kv.2)) []

/-- The inner `for custom_name, formula in self.custom_dimensions.items()`
loop for one contract: on a failed evaluation or a negative result, drop every
entry already produced for this contract and `break`. -/
def transformLoop (evalO : EvalOracle) (contractId : String) (ctx : EvalContext)
    (transformed : Dict (String × String) Int) :
    List (String × String) → Dict (String × String) Int
  | [] => transformed
  | (customName, formula) :: rest =>
    match evalO formula ctx with
    | .ok res =>
      if res < 0 then dropContract transformed
      else transformLoop evalO contractId ctx
        (dset transformed (contractId, customName) res) rest
    | .error _ => dropContract transformed
where
  /-- `if contract_id in [...]: {k: v for ... if k[0] != contract_id}` -/
  dropContract (t : Dict (String × String) Int) : Dict (String × String) Int :=
    if t.any (fun kv => kv.1.1 = contractId) then
      t.filter (fun kv => !(kv.1.1 = contractId : Bool))
    else t

/-- `transform_dimensions`: with no custom dimensions the data passes through;
otherwise every contract's formulas are evaluated fail-closed. -/
def transformDimensions (evalO : EvalOracle) (customDimensions : Dict String String)
    (aggregated : Dict (String × String) Int) : Dict (String × String) Int :=
  if customDimensions.isEmpty then aggregated
  else
    (groupByContract aggregated).foldl
      (fun transformed c =>
        transformLoop evalO c.1 (evalContext c.2) transformed customDimensions)
      []

/-! ## Clazar API model

One HTTP exchange is summarised by its observable effect on the caller:
a `requests.RequestException` (raised directly or via the non-200 check),
a response body without `"results"`, or a parsed `results` array. -/

/-- One element of the response's `results` array.  `"errors" in result and
result["errors"]` is modelled as `errors ≠ []` (non-list error values are
pre-wrapped into singleton lists). -/
structure ApiResult where
  contract_id : Option String
  status : Option String
  errors : List String
  code : Option String
  message : Option String
deriving Repr, DecidableEq

/-- Outcome of one `requests.post` to the metering endpoint. -/
inductive ApiResponse where
  /-- `requests.RequestException`, including the raised `HTTP {code}` one -/
  | netError (msg : String)
  /-- body without `"results"` (`ValueError` in the maintained script,
  a direct `return False` in the legacy one) -/
  | badShape (msg : String)
  | results (rs : List ApiResult)
deriving Repr, DecidableEq

/-- Per-(contract, attempt) network oracle. -/
abbrev NetOracle := String → Nat → ApiResponse

/-- The error-extraction loop shared by both retry paths: concatenated error
messages plus the last error result's `code`/`message`, with the source's
defaults. -/
def extractApiErrors (rs : List ApiResult) : List String × String × String :=
  rs.foldl
    (fun acc r =>
      if r.errors.isEmpty then acc
      else (acc.1 ++ r.errors, r.code.getD "API_ERROR", r.message.getD "Unknown error"))
    ([], "API_ERROR", "Unknown error")

/-- `any(result has non-empty errors)` — the `has_errors` scan. -/
def hasApiErrors (rs : List ApiResult) : Bool :=
  rs.any (fun r => !r.errors.isEmpty)

/-! ## Delivery engine (maintained script, `src/src/metering_processor.py`) -/

/-- `contract_records = defaultdict(list)` grouping of the aggregated data
into one record list per contract, in iteration order. -/
def contractRecords (cloud startTime endTime : String)
    (aggregatedData : Dict (String × String) Int) : Dict String (List MeteringRecord) :=
  aggregatedData.foldl
    (fun d kv =>
      let record : MeteringRecord :=
        { cloud := cloud, contract_id := kv.1.1, dimension := kv.1.2,
          start_time := startTime, end_time := endTime, quantity := kv.2 }
      dset d kv.1.1 ((dget d kv.1.1).getD [] ++ [record]))
    []

/-- The `for attempt in range(max_retries + 1)` loop of `send_to_clazar` for
one contract.  `fuel` counts the remaining iterations (canonically
`max_retries + 1 - attempt`); the `fuel = 0` fallback is the loop running out
without a `break`, which leaves `success = False`. -/
def sendAttemptLoop (resp : Nat → ApiResponse) (maxRetries : Nat)
    (serviceKey monthKey contractId : String) (payload : Payload) (now : Nat) :
    Nat → Nat → PState → Bool × PState
  | _, 0, s => (false, s)
  | attempt, fuel + 1, s =>
    match resp attempt with
    | .results rs =>
      if hasApiErrors rs then
        if attempt = maxRetries then
          let e := extractApiErrors rs
          (false, markContractMonthError s serviceKey monthKey contractId e.1
            (some e.2.1) (some e.2.2) (some payload) attempt now)
        else
          sendAttemptLoop resp maxRetries serviceKey monthKey contractId payload now
            (attempt + 1) fuel s
      else
        (true, markContractMonthProcessed
          (removeErrorContract s serviceKey monthKey contractId now)
          serviceKey monthKey contractId now)
    | .netError msg =>
      if attempt = maxRetries then
        (false, markContractMonthError s serviceKey monthKey contractId [msg]
          (some "NETWORK_ERROR") (some msg) (some payload) attempt now)
      else
        sendAttemptLoop resp maxRetries serviceKey monthKey contractId payload now
          (attempt + 1) fuel s
    | .badShape msg =>
      if attempt = maxRetries then
        (false, markContractMonthError s serviceKey monthKey contractId [msg]
          (some "UNEXPECTED_ERROR") (some msg) (some payload) attempt now)
      else
        sendAttemptLoop resp maxRetries serviceKey monthKey contractId payload now
          (attempt + 1) fuel s

/-- The `for contract_id, records in contract_records.items()` loop of
`send_to_clazar`, threading the `(all_success, state)` accumulator. -/
def sendContractsLoop (resp : NetOracle) (maxRetries : Nat)
    (serviceKey monthKey : String) (dryRun : Bool) (now : Nat) :
    List (String × List MeteringRecord) → Bool × PState → Bool × PState
  | [], acc => acc
  | cr :: rest, acc =>
    let acc' :=
      if dryRun then
        (acc.1, markContractMonthProcessed acc.2 serviceKey monthKey cr.1 now)
      else
        let r := sendAttemptLoop (resp cr.1) maxRetries serviceKey monthKey cr.1
          ⟨cr.2⟩ now 0 (maxRetries + 1) acc.2
        (acc.1 && r.1, r.2)
    sendContractsLoop resp maxRetries serviceKey monthKey dryRun now rest acc'

/-- `send_to_clazar` (maintained variant): per-contract submission with
bounded retries; the dry run marks every contract processed at its first
attempt.  Returns the `all_success` flag and the final state. -/
def sendToClazar (resp : NetOracle) (aggregatedData : Dict (String × String) Int)
    (startTime endTime : String) (year month : Nat) (serviceKey : String)
    (maxRetries : Nat) (cloud : String) (dryRun hasAccessToken : Bool) (now : Nat)
    (s : PState) : Bool × PState :=
  if aggregatedData.isEmpty then (true, s)
  else if !hasAccessToken && !dryRun then (false, s)
  else
    sendContractsLoop resp maxRetries serviceKey (getMonthKey year month) dryRun now
      (contractRecords cloud startTime endTime aggregatedData) (true, s)

/-- The `while current_retry < max_retries` loop of `retry_error_contracts`
for one stored error entry.  `fuel` counts the remaining iterations
(canonically `max_retries - current_retry`); running out of fuel coincides
with the loop guard failing, leaving `success = False`. -/
def retryAttemptLoop (resp : Nat → ApiResponse) (maxRetries : Nat)
    (serviceKey monthKey contractId : String) (payload : Payload)
    (dryRun : Bool) (now : Nat) : Nat → Nat → PState → Bool × PState
  | _, 0, s => (false, s)
  | currentRetry, fuel + 1, s =>
    if currentRetry < maxRetries then
      let cr := currentRetry + 1
      if dryRun then
        (true, markContractMonthProcessed
          (removeErrorContract s serviceKey monthKey contractId now)
          serviceKey monthKey contractId now)
      else
        match resp cr with
        | .results rs =>
          if hasApiErrors rs then
            let e := extractApiErrors rs
            let s' := markContractMonthError s serviceKey monthKey contractId e.1
              (some e.2.1) (some e.2.2) (some payload) cr now
            if maxRetries ≤ cr then (false, s')
            else
              retryAttemptLoop resp maxRetries serviceKey monthKey contractId payload
                dryRun now cr fuel s'
          else
            (true, markContractMonthProcessed
              (removeErrorContract s serviceKey monthKey contractId now)
              serviceKey monthKey contractId now)
        | .netError msg | .badShape msg =>
          let s' := markContractMonthError s serviceKey monthKey contractId [msg]
            (some "RETRY_ERROR") (some msg) (some payload) cr now
          if maxRetries ≤ cr then (false, s')
          else
            retryAttemptLoop resp maxRetries serviceKey monthKey contractId payload
              dryRun now cr fuel s'
    else (false, s)

/-- The `for error_entry in error_contracts` loop of `retry_error_contracts`:
entries with a falsy `contract_id` or missing payload are skipped, the rest
run the retry loop from their stored `retry_count`. -/
def retryEntriesLoop (resp : NetOracle) (maxRetries : Nat)
    (serviceKey monthKey : String) (dryRun : Bool) (now : Nat) :
    List ErrorEntry → Bool × PState → Bool × PState
  | [], acc => acc
  | e :: rest, acc =>
    let acc' :=
      if e.contract_id.data.isEmpty ∨ e.payload.isNone then acc
      else
        let rc := e.retry_count.getD 0
        let r := retryAttemptLoop (resp e.contract_id) maxRetries serviceKey monthKey
          e.contract_id (e.payload.getD ⟨[]⟩) dryRun now rc (maxRetries - rc) acc.2
        (acc.1 && r.1, r.2)
    retryEntriesLoop resp maxRetries serviceKey monthKey dryRun now rest acc'

/-- `retry_error_contracts`: resubmit every retryable stored error entry from
its attached payload. -/
def retryErrorContracts (resp : NetOracle) (s : PState) (serviceKey : String)
    (year month : Nat) (maxRetries : Nat) (dryRun : Bool) (now : Nat) : Bool × PState :=
  let monthKey := getMonthKey year month
  let errorContracts := getErrorContractsForRetry s serviceKey monthKey maxRetries
  if errorContracts.isEmpty then (true, s)
  else
    retryEntriesLoop resp maxRetries serviceKey monthKey dryRun now errorContracts (true, s)

/-! ## Reconciliation driver (maintained script) -/

/-- `filter_success_contracts`: keep only entries whose contract is not yet
resolved (neither success nor error) for the month. -/
def filterSuccessContracts (s : PState) (serviceKey monthKey : String)
    (aggregatedData : Dict (String × String) Int) : Dict (String × String) Int :=
  aggregatedData.foldl
    (fun d kv =>
      if !isContractMonthProcessed s serviceKey monthKey kv.1.1 then dset d kv.1 kv.2
      else d)
    []

/-- `datetime(year, month, 1).isoformat() + "Z"`. -/
def isoMonthStart (year month : Nat) : String :=
  String.mk (monthKeyChars year month) ++ "-01T00:00:00Z"

/-- `datetime(year, month, last_day, 23, 59, 59).isoformat() + "Z"`. -/
def isoMonthEnd (year month : Nat) : String :=
  String.mk (monthKeyChars year month) ++ "-"
    ++ String.mk (padZero 2 (natDigits (daysInMonth year month))) ++ "T23:59:59Z"

/-- `process_month`: phase A retries stored errors; with no subscription files
or no usage records the phase-A result is returned; otherwise the fresh data
is aggregated, optionally transformed (an empty transform aborts with
`False`), filtered against the ledger, and the remainder submitted (phase B).
`subscriptionFiles` holds the parsed records of each listed file (a file whose
read or JSON parse fails contributes `[]`). -/
def processMonth (retryResp sendResp : NetOracle) (evalO : EvalOracle)
    (customDimensions : Dict String String)
    (subscriptionFiles : List (List UsageRecord))
    (s : PState) (serviceKey : String) (year month : Nat) (maxRetries : Nat)
    (cloud : String) (dryRun hasAccessToken : Bool) (now : Nat) : Bool × PState :=
  let retry := retryErrorContracts retryResp s serviceKey year month maxRetries dryRun now
  if subscriptionFiles.isEmpty then retry
  else
    let allUsageRecords := subscriptionFiles.flatten
    if allUsageRecords.isEmpty then retry
    else
      let aggregated0 := aggregateUsageData allUsageRecords
      let aggregatedData :=
        if !customDimensions.isEmpty then
          transformDimensions evalO customDimensions aggregated0
        else aggregated0
      if !customDimensions.isEmpty ∧ aggregatedData.isEmpty then (false, retry.2)
      else
        let filteredData :=
          filterSuccessContracts retry.2 serviceKey (getMonthKey year month) aggregatedData
        if filteredData.isEmpty then retry
        else
          let send := sendToClazar sendResp filteredData (isoMonthStart year month)
            (isoMonthEnd year month) year month serviceKey maxRetries cloud dryRun
            hasAccessToken now retry.2
          (retry.1 && send.1, send.2)

/-- `process_next_month`: ask the cursor tracker for the next month (no-op
success when caught up), process it, and advance the cursor only on success.
`filesOf` is the S3 listing for the month that gets processed. -/
def processNextMonth (retryResp sendResp : NetOracle) (evalO : EvalOracle)
    (customDimensions : Dict String String)
    (filesOf : Nat → Nat → List (List UsageRecord))
    (s : PState) (u : UsageState) (serviceKey : String) (maxRetries : Nat)
    (startMonth : Nat × Nat) (cloud : String) (dryRun hasAccessToken : Bool)
    (now : Nat) : Bool × PState :=
  match getNextMonthToProcess s u serviceKey startMonth with
  | none => (true, s)
  | some (year, month) =>
    let r := processMonth retryResp sendResp evalO customDimensions
      (filesOf year month) s serviceKey year month maxRetries cloud dryRun
      hasAccessToken now
    if r.1 then (r.1, updateLastProcessedMonth r.2 serviceKey year month now)
    else r

/-! ## Legacy script (`src/metering_processor.py`)

The repository also carries an earlier near-duplicate.  Its
`mark_contract_month_error` has no `payload`/`retry_count` parameters and its
`send_to_clazar` submits one batch request without retries. -/

/-- Legacy `mark_contract_month_error` (no payload, no retry count). -/
def markContractMonthErrorLegacy (s : PState) (serviceKey monthKey contractId : String)
    (errors : List String) (code message : Option String) (now : Nat) : PState :=
  let svc := getService s serviceKey
  let lst := (dget svc.error_contracts monthKey).getD []
  let lst' :=
    if lst.any (fun e => e.contract_id = contractId) then
      updateFirst (fun e => e.contract_id = contractId)
        (fun e =>
          { e with errors := e.errors ++ errors,
                   code := if truthyStr code then code else e.code,
                   message := if truthyStr message then message else e.message }) lst
    else
      lst ++ [{ contract_id := contractId, errors := errors,
                retry_count := none, last_retry_time := none,
                code := if truthyStr code then code else none,
                message := if truthyStr message then message else none,
                payload := none }]
  dset s serviceKey
    { svc with error_contracts := dset svc.error_contracts monthKey lst',
               last_updated := some now }

/-- The `contract_ids` set of the legacy payload preparation, as a
duplicate-free list in first-occurrence order (Python set iteration order is
unspecified; only membership matters to the results proved here). -/
def contractIdsOf (aggregatedData : Dict (String × String) Int) : List String :=
  aggregatedData.foldl
    (fun acc kv => if kv.1.1 ∈ acc then acc else acc ++ [kv.1.1]) []

/-- Legacy `send_to_clazar`: one batch request; per-result errors are recorded
and skipped, everything else is marked successful; returns
`len(successful_contracts) + len(error results) > 0`. -/
def sendToClazarLegacy (response : ApiResponse)
    (aggregatedData : Dict (String × String) Int) (year month : Nat)
    (serviceKey : String) (dryRun hasAccessToken : Bool) (now : Nat)
    (s : PState) : Bool × PState :=
  if aggregatedData.isEmpty then (true, s)
  else if !hasAccessToken && !dryRun then (false, s)
  else
    let monthKey := getMonthKey year month
    if dryRun then
      (true, (contractIdsOf aggregatedData).foldl
        (fun st cid => markContractMonthProcessed st serviceKey monthKey cid now) s)
    else
      match response with
      | .netError _ => (false, s)
      | .badShape _ => (false, s)
      | .results rs =>
        let scan := rs.foldl
          (fun (acc : List String × PState) r =>
            if !r.errors.isEmpty then
              (acc.1,
               if truthyStr r.contract_id then
                 markContractMonthErrorLegacy acc.2 serviceKey monthKey
                   (r.contract_id.getD "") r.errors (some (r.code.getD "API_ERROR"))
                   (some (r.message.getD "Unknown error")) now
               else acc.2)
            else
              (if truthyStr r.contract_id ∧ (r.contract_id.getD "") ∉ acc.1 then
                 acc.1 ++ [r.contract_id.getD ""]
               else acc.1, acc.2))
          ([], s)
        let st := scan.1.foldl
          (fun st cid => markContractMonthProcessed st serviceKey monthKey cid now) scan.2
        (decide (0 < scan.1.length + (rs.filter (fun r => !r.errors.isEmpty)).length), st)

/-! ## Observers

Spec-level views of the state used by the claim statements. -/

/-- The cursor string stored for a service (`last_processed_month`). -/
def cursorStr (s : PState) (serviceKey : String) : Option String :=
  (getService s serviceKey).last_processed_month

/-- The success list recorded for a (service, month). -/
def successList (s : PState) (serviceKey monthKey : String) : List String :=
  (dget (getService s serviceKey).success_contracts monthKey).getD []

/-- The error entries recorded for a (service, month). -/
def errorList (s : PState) (serviceKey monthKey : String) : List ErrorEntry :=
  (dget (getService s serviceKey).error_contracts monthKey).getD []

/-- Is the contract recorded as a success for the month? -/
def contractInSuccess (s : PState) (serviceKey monthKey contractId : String) : Bool :=
  decide (contractId ∈ successList s serviceKey monthKey)

/-- Does the contract have an error entry for the month? -/
def contractInError (s : PState) (serviceKey monthKey contractId : String) : Bool :=
  (errorList s serviceKey monthKey).any (fun e => e.contract_id = contractId)

/-- Ledger exclusivity: no entity is recorded as both Success and Error for
the same (service, month). -/
def Exclusive (s : PState) : Prop :=
  ∀ serviceKey monthKey contractId,
    ¬(contractInSuccess s serviceKey monthKey contractId = true ∧
      contractInError s serviceKey monthKey contractId = true)

/-- Every stored error entry's retry count (default 0) is at most `m`. -/
def RetryBound (m : Nat) (s : PState) : Prop :=
  ∀ serviceKey monthKey e, e ∈ errorList s serviceKey monthKey →
    e.retry_count.getD 0 ≤ m

/-- Every success list is duplicate-free. -/
def SuccessNodup (s : PState) : Prop :=
  ∀ serviceKey monthKey, (successList s serviceKey monthKey).Nodup

/-- Strict order on months, `(y, m)` lexicographic. -/
def monthLt (a b : Nat × Nat) : Prop :=
  a.1 < b.1 ∨ (a.1 = b.1 ∧ a.2 < b.2)

/-- Reflexive order on months. -/
def monthLe (a b : Nat × Nat) : Prop :=
  monthLt a b ∨ a = b

instance (a b : Nat × Nat) : Decidable (monthLt a b) := by
  unfold monthLt
  infer_instance

instance (a b : Nat × Nat) : Decidable (monthLe a b) := by
  unfold monthLe
  infer_instance

/-! ## Dictionary lemmas -/

theorem dget_dset {α β : Type} [DecidableEq α] (d : Dict α β) (k : α) (v : β) (k' : α) :
    dget (dset d k v) k' = if k = k' then some v else dget d k' := by
  induction d with
  | nil => simp [dget, dset]
  | cons kv rest ih =>
    obtain ⟨k₀, v₀⟩ := kv
    by_cases h₀ : k₀ = k
    · subst h₀
      by_cases h : k₀ = k' <;> simp [dget, dset, h]
    · by_cases h : k₀ = k'
      · subst h
        have hk : ¬k = k₀ := fun e => h₀ e.symm
        simp [dset, dget, h₀, hk]
      · simp [dset, dget, h₀, h, ih]

theorem dget_ddel {α β : Type} [DecidableEq α] (d : Dict α β) (k k' : α) :
    dget (ddel d k) k' = if k = k' then none else dget d k' := by
  induction d with
  | nil => simp [dget, ddel]
  | cons kv rest ih =>
    obtain ⟨k₀, v₀⟩ := kv
    by_cases h₀ : k₀ = k
    · subst h₀
      by_cases h : k₀ = k'
      · subst h
        simp [ddel, ih]
      · simp [ddel, dget, h, ih]
    · by_cases h : k₀ = k'
      · subst h
        have hk : ¬k = k₀ := fun e => h₀ e.symm
        simp [ddel, dget, h₀, hk]
      · simp [ddel, dget, h₀, h, ih]

theorem getService_dset (s : PState) (key : String) (svc : ServiceState) (k : String) :
    getService (dset s key svc) k = if key = k then svc else getService s k := by
  unfold getService
  rw [dget_dset]
  by_cases h : key = k <;> simp [h]

/-! ## Projection lemmas for the ledger operations -/

theorem cursorStr_markContractMonthProcessed (s : PState) (k mk c : String) (t : Nat)
    (k' : String) :
    cursorStr (markContractMonthProcessed s k mk c t) k' = cursorStr s k' := by
  unfold cursorStr markContractMonthProcessed
  rw [getService_dset]
  by_cases h : k = k' <;> simp [h]

theorem successList_markContractMonthProcessed (s : PState) (k mk c : String) (t : Nat)
    (k' mk' : String) :
    successList (markContractMonthProcessed s k mk c t) k' mk' =
      if k = k' ∧ mk = mk' then
        (if c ∈ successList s k mk then successList s k mk
         else successList s k mk ++ [c])
      else successList s k' mk' := by
  unfold successList markContractMonthProcessed
  rw [getService_dset]
  by_cases h : k = k'
  · subst h
    simp only [if_pos rfl]
    by_cases h2 : mk = mk' <;> simp [h2, dget_dset]
  · simp [h]

theorem errorList_markContractMonthProcessed (s : PState) (k mk c : String) (t : Nat)
    (k' mk' : String) :
    errorList (markContractMonthProcessed s k mk c t) k' mk' = errorList s k' mk' := by
  unfold errorList markContractMonthProcessed
  rw [getService_dset]
  by_cases h : k = k' <;> simp [h]

theorem mem_successList_markContractMonthProcessed (s : PState) (k mk c : String) (t : Nat)
    (k' mk' c' : String) :
    c' ∈ successList (markContractMonthProcessed s k mk c t) k' mk' ↔
      c' ∈ successList s k' mk' ∨ (k = k' ∧ mk = mk' ∧ c' = c) := by
  rw [successList_markContractMonthProcessed]
  by_cases h : k = k' ∧ mk = mk'
  · obtain ⟨h1, h2⟩ := h
    subst h1; subst h2
    rw [if_pos (show k = k ∧ mk = mk from ⟨rfl, rfl⟩)]
    by_cases hc : c ∈ successList s k mk
    · rw [if_pos hc]
      constructor
      · exact fun hm => Or.inl hm
      · rintro (hm | ⟨-, -, rfl⟩)
        · exact hm
        · exact hc
    · rw [if_neg hc]
      simp only [List.mem_append, List.mem_singleton]
      constructor
      · rintro (hm | rfl)
        · exact Or.inl hm
        · exact Or.inr (by simp)
      · rintro (hm | ⟨-, -, rfl⟩)
        · exact Or.inl hm
        · exact Or.inr rfl
  · rw [if_neg h]
    constructor
    · exact fun hm => Or.inl hm
    · rintro (hm | ⟨h1, h2, rfl⟩)
      · exact hm
      · exact absurd ⟨h1, h2⟩ h

theorem cursorStr_markContractMonthError (s : PState) (k mk c : String)
    (errs : List String) (co ms : Option String) (p : Option Payload) (rc t : Nat)
    (k' : String) :
    cursorStr (markContractMonthError s k mk c errs co ms p rc t) k' = cursorStr s k' := by
  unfold cursorStr markContractMonthError
  rw [getService_dset]
  by_cases h : k = k' <;> simp [h]

theorem successList_markContractMonthError (s : PState) (k mk c : String)
    (errs : List String) (co ms : Option String) (p : Option Payload) (rc t : Nat)
    (k' mk' : String) :
    successList (markContractMonthError s k mk c errs co ms p rc t) k' mk' =
      successList s k' mk' := by
  unfold successList markContractMonthError
  rw [getService_dset]
  by_cases h : k = k' <;> simp [h]

theorem cursorStr_removeErrorContract (s : PState) (k mk c : String) (t : Nat)
    (k' : String) :
    cursorStr (removeErrorContract s k mk c t) k' = cursorStr s k' := by
  unfold cursorStr removeErrorContract
  split
  · rfl
  rename_i svc hs
  split
  · rfl
  rename_i lst he
  rw [getService_dset]
  by_cases h : k = k'
  · subst h
    simp [getService, hs]
  · simp [h]

theorem successList_removeErrorContract (s : PState) (k mk c : String) (t : Nat)
    (k' mk' : String) :
    successList (removeErrorContract s k mk c t) k' mk' = successList s k' mk' := by
  unfold successList removeErrorContract
  split
  · rfl
  rename_i svc hs
  split
  · rfl
  rename_i lst he
  rw [getService_dset]
  by_cases h : k = k'
  · subst h
    simp [getService, hs]
  · simp [h]

theorem cursorStr_updateLastProcessedMonth (s : PState) (k : String) (y m t : Nat)
    (k' : String) :
    cursorStr (updateLastProcessedMonth s k y m t) k' =
      if k = k' then some (getMonthKey y m) else cursorStr s k' := by
  unfold cursorStr updateLastProcessedMonth
  rw [getService_dset]
  by_cases h : k = k' <;> simp [h]

theorem successList_updateLastProcessedMonth (s : PState) (k : String) (y m t : Nat)
    (k' mk' : String) :
    successList (updateLastProcessedMonth s k y m t) k' mk' = successList s k' mk' := by
  unfold successList updateLastProcessedMonth
  rw [getService_dset]
  by_cases h : k = k' <;> simp [h]

theorem errorList_updateLastProcessedMonth (s : PState) (k : String) (y m t : Nat)
    (k' mk' : String) :
    errorList (updateLastProcessedMonth s k y m t) k' mk' = errorList s k' mk' := by
  unfold errorList updateLastProcessedMonth
  rw [getService_dset]
  by_cases h : k = k' <;> simp [h]

theorem mem_updateFirst {α : Type} (p : α → Bool) (f : α → α) (l : List α) (x : α)
    (hx : x ∈ updateFirst p f l) : x ∈ l ∨ ∃ y ∈ l, x = f y := by
  induction l with
  | nil => simp [updateFirst] at hx
  | cons a l ih =>
    by_cases hp : p a
    · simp only [updateFirst, if_pos hp, List.mem_cons] at hx
      rcases hx with rfl | hx
      · exact Or.inr ⟨a, List.mem_cons_self a l, rfl⟩
      · exact Or.inl (List.mem_cons_of_mem a hx)
    · simp only [updateFirst, if_neg hp, List.mem_cons] at hx
      rcases hx with rfl | hx
      · exact Or.inl (List.mem_cons_self x l)
      · rcases ih hx with h | ⟨y, hy, rfl⟩
        · exact Or.inl (List.mem_cons_of_mem a h)
        · exact Or.inr ⟨y, List.mem_cons_of_mem a hy, rfl⟩

theorem any_id_updateFirst (p : ErrorEntry → Bool) (f : ErrorEntry → ErrorEntry)
    (hf : ∀ x, (f x).contract_id = x.contract_id) (l : List ErrorEntry) (c' : String) :
    (updateFirst p f l).any (fun e => e.contract_id = c') =
      l.any (fun e => e.contract_id = c') := by
  induction l with
  | nil => rfl
  | cons a l ih =>
    by_cases hp : p a
    · simp [updateFirst, hp, hf]
    · simp [updateFirst, hp, ih]

/-- The error list written by `mark_contract_month_error` at its own keys. -/
def markedErrorList (lst : List ErrorEntry) (c : String) (errs : List String)
    (co ms : Option String) (p : Option Payload) (rc t : Nat) : List ErrorEntry :=
  if lst.any (fun e => e.contract_id = c) then
    updateFirst (fun e => e.contract_id = c)
      (fun e =>
        { e with errors := e.errors ++ errs,
                 code := if truthyStr co then co else e.code,
                 message := if truthyStr ms then ms else e.message,
                 payload := if p.isSome then p else e.payload,
                 retry_count := some rc,
                 last_retry_time := some t }) lst
  else
    lst ++ [{ contract_id := c, errors := errs, retry_count := some rc,
              last_retry_time := some t,
              code := if truthyStr co then co else none,
              message := if truthyStr ms then ms else none,
              payload := p }]

theorem errorList_markContractMonthError (s : PState) (k mk c : String)
    (errs : List String) (co ms : Option String) (p : Option Payload) (rc t : Nat)
    (k' mk' : String) :
    errorList (markContractMonthError s k mk c errs co ms p rc t) k' mk' =
      if k = k' ∧ mk = mk' then
        markedErrorList (errorList s k mk) c errs co ms p rc t
      else errorList s k' mk' := by
  unfold errorList markContractMonthError markedErrorList
  rw [getService_dset]
  by_cases h : k = k'
  · subst h
    simp only [if_pos rfl]
    by_cases h2 : mk = mk'
    · subst h2
      simp [dget_dset]
    · simp [h2, dget_dset]
  · simp [h]

theorem errorList_removeErrorContract (s : PState) (k mk c : String) (t : Nat)
    (k' mk' : String) :
    errorList (removeErrorContract s k mk c t) k' mk' =
      if k = k' ∧ mk = mk' then
        (errorList s k mk).filter (fun e => !(e.contract_id = c : Bool))
      else errorList s k' mk' := by
  unfold errorList removeErrorContract
  split
  · rename_i hs
    by_cases h : k = k' ∧ mk = mk'
    · obtain ⟨rfl, rfl⟩ := h
      simp [getService, hs, dget]
    · simp [h]
  rename_i svc hs
  split
  · rename_i he
    by_cases h : k = k' ∧ mk = mk'
    · obtain ⟨rfl, rfl⟩ := h
      simp [getService, hs, he]
    · simp [h]
  rename_i lst he
  rw [getService_dset]
  by_cases h : k = k'
  · subst h
    simp only [if_pos rfl]
    by_cases h2 : mk = mk'
    · subst h2
      by_cases hemp : (lst.filter (fun e => !(e.contract_id = c : Bool))).isEmpty
      · simp [hemp, dget_ddel, getService, hs, he, List.isEmpty_iff.mp hemp]
      · simp [hemp, dget_dset, getService, hs, he]
    · by_cases hemp : (lst.filter (fun e => !(e.contract_id = c : Bool))).isEmpty
      · simp [hemp, dget_ddel, h2, getService, hs]
      · simp [hemp, dget_dset, h2, getService, hs]
  · simp [h]

/-! ## Membership corollaries -/

theorem isContractMonthProcessed_eq (s : PState) (k mk c : String) :
    isContractMonthProcessed s k mk c =
      (contractInSuccess s k mk c || contractInError s k mk c) := by
  unfold isContractMonthProcessed contractInSuccess contractInError successList errorList
    getService
  cases hs : dget s k with
  | none => simp [ServiceState.empty, dget]
  | some svc =>
    simp only [Option.getD_some]
    have hsucc : (match dget svc.success_contracts mk with
        | some lst => (c ∈ lst : Bool)
        | none => false) = (c ∈ (dget svc.success_contracts mk).getD [] : Bool) := by
      cases dget svc.success_contracts mk <;> simp
    have herr : (match dget svc.error_contracts mk with
        | some lst => lst.any (fun e => e.contract_id = c)
        | none => false) =
          ((dget svc.error_contracts mk).getD []).any (fun e => e.contract_id = c) := by
      cases dget svc.error_contracts mk <;> simp
    rw [hsucc, herr]

theorem contractInSuccess_markContractMonthProcessed (s : PState) (k mk c : String)
    (t : Nat) (k' mk' c' : String) :
    contractInSuccess (markContractMonthProcessed s k mk c t) k' mk' c' = true ↔
      contractInSuccess s k' mk' c' = true ∨ (k = k' ∧ mk = mk' ∧ c' = c) := by
  unfold contractInSuccess
  simp only [decide_eq_true_eq]
  exact mem_successList_markContractMonthProcessed s k mk c t k' mk' c'

theorem contractInError_markContractMonthProcessed (s : PState) (k mk c : String)
    (t : Nat) (k' mk' c' : String) :
    contractInError (markContractMonthProcessed s k mk c t) k' mk' c' =
      contractInError s k' mk' c' := by
  unfold contractInError
  rw [errorList_markContractMonthProcessed]

theorem contractInSuccess_markContractMonthError (s : PState) (k mk c : String)
    (errs : List String) (co ms : Option String) (p : Option Payload) (rc t : Nat)
    (k' mk' c' : String) :
    contractInSuccess (markContractMonthError s k mk c errs co ms p rc t) k' mk' c' =
      contractInSuccess s k' mk' c' := by
  unfold contractInSuccess
  rw [successList_markContractMonthError]

theorem contractInError_markContractMonthError (s : PState) (k mk c : String)
    (errs : List String) (co ms : Option String) (p : Option Payload) (rc t : Nat)
    (k' mk' c' : String) :
    contractInError (markContractMonthError s k mk c errs co ms p rc t) k' mk' c' = true ↔
      contractInError s k' mk' c' = true ∨ (k = k' ∧ mk = mk' ∧ c' = c) := by
  unfold contractInError
  rw [errorList_markContractMonthError]
  by_cases h : k = k' ∧ mk = mk'
  · obtain ⟨rfl, rfl⟩ := h
    rw [if_pos ⟨rfl, rfl⟩]
    unfold markedErrorList
    by_cases ha : (errorList s k mk).any (fun e => e.contract_id = c)
    · rw [if_pos ha]
      rw [any_id_updateFirst (fun e => (e.contract_id = c : Bool))
        (fun e =>
          { e with errors := e.errors ++ errs,
                   code := if truthyStr co then co else e.code,
                   message := if truthyStr ms then ms else e.message,
                   payload := if p.isSome then p else e.payload,
                   retry_count := some rc,
                   last_retry_time := some t })
        (fun _ => rfl) (errorList s k mk) c']
      constructor
      · exact fun hm => Or.inl hm
      · rintro (hm | ⟨-, -, rfl⟩)
        · exact hm
        · exact ha
    · rw [if_neg ha]
      simp only [List.any_append, List.any_cons, List.any_nil, Bool.or_false,
        Bool.or_eq_true, decide_eq_true_eq]
      constructor
      · rintro (hm | rfl)
        · exact Or.inl hm
        · exact Or.inr (by simp)
      · rintro (hm | ⟨-, -, rfl⟩)
        · exact Or.inl hm
        · exact Or.inr rfl
  · rw [if_neg h]
    constructor
    · exact fun hm => Or.inl hm
    · rintro (hm | ⟨h1, h2, rfl⟩)
      · exact hm
      · exact absurd ⟨h1, h2⟩ h

theorem contractInSuccess_removeErrorContract (s : PState) (k mk c : String) (t : Nat)
    (k' mk' c' : String) :
    contractInSuccess (removeErrorContract s k mk c t) k' mk' c' =
      contractInSuccess s k' mk' c' := by
  unfold contractInSuccess
  rw [successList_removeErrorContract]

theorem any_filter_self (l : List ErrorEntry) (c : String) :
    (l.filter (fun e => !(e.contract_id = c : Bool))).any
      (fun e => e.contract_id = c) = false := by
  induction l with
  | nil => rfl
  | cons e l ih =>
    by_cases hid : e.contract_id = c <;> simp [List.filter_cons, hid, ih]

theorem any_filter_ne (l : List ErrorEntry) (c c' : String) (hc : ¬c' = c) :
    (l.filter (fun e => !(e.contract_id = c : Bool))).any
      (fun e => e.contract_id = c') = l.any (fun e => e.contract_id = c') := by
  induction l with
  | nil => rfl
  | cons e l ih =>
    by_cases hid : e.contract_id = c
    · have hne : ¬e.contract_id = c' := fun h => hc (h ▸ hid)
      have hc2 : ¬c = c' := fun h => hc h.symm
      simp [List.filter_cons, hid, hne, hc2, ih]
    · simp [List.filter_cons, hid, ih]

theorem contractInError_removeErrorContract (s : PState) (k mk c : String) (t : Nat)
    (k' mk' c' : String) :
    contractInError (removeErrorContract s k mk c t) k' mk' c' =
      if k = k' ∧ mk = mk' ∧ c' = c then false else contractInError s k' mk' c' := by
  unfold contractInError
  rw [errorList_removeErrorContract]
  by_cases h : k = k' ∧ mk = mk'
  · obtain ⟨rfl, rfl⟩ := h
    rw [if_pos ⟨rfl, rfl⟩]
    by_cases hc : c' = c
    · subst hc
      rw [if_pos ⟨rfl, rfl, rfl⟩]
      exact any_filter_self _ _
    · rw [if_neg (by rintro ⟨-, -, h'⟩; exact hc h')]
      exact any_filter_ne _ _ _ hc
  · rw [if_neg h, if_neg (by rintro ⟨h1, h2, -⟩; exact h ⟨h1, h2⟩)]

/-! ## Invariant preservation by the primitive ledger operations -/

theorem Exclusive_removeErrorContract {s : PState} (h : Exclusive s)
    (k mk c : String) (t : Nat) : Exclusive (removeErrorContract s k mk c t) := by
  rintro k' mk' c' ⟨hsu, herr⟩
  rw [contractInSuccess_removeErrorContract] at hsu
  rw [contractInError_removeErrorContract] at herr
  by_cases hcond : k = k' ∧ mk = mk' ∧ c' = c
  · rw [if_pos hcond] at herr
    exact Bool.false_ne_true herr
  · rw [if_neg hcond] at herr
    exact h k' mk' c' ⟨hsu, herr⟩

theorem Exclusive_markProcessed_of_noError {s : PState} (h : Exclusive s)
    {k mk c : String} (t : Nat) (hc : contractInError s k mk c = false) :
    Exclusive (markContractMonthProcessed s k mk c t) := by
  rintro k' mk' c' ⟨hsu, herr⟩
  rw [contractInError_markContractMonthProcessed] at herr
  rcases (contractInSuccess_markContractMonthProcessed s k mk c t k' mk' c').mp hsu with
    hold | ⟨rfl, rfl, rfl⟩
  · exact h k' mk' c' ⟨hold, herr⟩
  · rw [herr] at hc
    simp at hc

theorem Exclusive_successPair {s : PState} (h : Exclusive s) (k mk c : String)
    (t t' : Nat) :
    Exclusive (markContractMonthProcessed (removeErrorContract s k mk c t) k mk c t') :=
  Exclusive_markProcessed_of_noError (Exclusive_removeErrorContract h k mk c t) t'
    (by rw [contractInError_removeErrorContract, if_pos ⟨rfl, rfl, rfl⟩])

theorem Exclusive_markError_of_noSuccess {s : PState} (h : Exclusive s)
    {k mk c : String} (errs : List String) (co ms : Option String) (p : Option Payload)
    (rc t : Nat) (hc : contractInSuccess s k mk c = false) :
    Exclusive (markContractMonthError s k mk c errs co ms p rc t) := by
  rintro k' mk' c' ⟨hsu, herr⟩
  rw [contractInSuccess_markContractMonthError] at hsu
  rcases (contractInError_markContractMonthError s k mk c errs co ms p rc t k' mk' c').mp
    herr with hold | ⟨rfl, rfl, rfl⟩
  · exact h k' mk' c' ⟨hsu, hold⟩
  · rw [hsu] at hc
    simp at hc

theorem RetryBound_markContractMonthProcessed {m : Nat} {s : PState} (h : RetryBound m s)
    (k mk c : String) (t : Nat) : RetryBound m (markContractMonthProcessed s k mk c t) := by
  intro k' mk' e he
  rw [errorList_markContractMonthProcessed] at he
  exact h k' mk' e he

theorem RetryBound_removeErrorContract {m : Nat} {s : PState} (h : RetryBound m s)
    (k mk c : String) (t : Nat) : RetryBound m (removeErrorContract s k mk c t) := by
  intro k' mk' e he
  rw [errorList_removeErrorContract] at he
  by_cases hcond : k = k' ∧ mk = mk'
  · rw [if_pos hcond] at he
    exact h k mk e (List.mem_of_mem_filter he)
  · rw [if_neg hcond] at he
    exact h k' mk' e he

theorem RetryBound_updateLastProcessedMonth {m : Nat} {s : PState} (h : RetryBound m s)
    (k : String) (y mo t : Nat) : RetryBound m (updateLastProcessedMonth s k y mo t) := by
  intro k' mk' e he
  rw [errorList_updateLastProcessedMonth] at he
  exact h k' mk' e he

theorem RetryBound_markContractMonthError {m : Nat} {s : PState} (h : RetryBound m s)
    (k mk c : String) (errs : List String) (co ms : Option String) (p : Option Payload)
    {rc : Nat} (t : Nat) (hrc : rc ≤ m) :
    RetryBound m (markContractMonthError s k mk c errs co ms p rc t) := by
  intro k' mk' e he
  rw [errorList_markContractMonthError] at he
  by_cases hcond : k = k' ∧ mk = mk'
  · rw [if_pos hcond] at he
    unfold markedErrorList at he
    by_cases ha : (errorList s k mk).any (fun e => e.contract_id = c)
    · rw [if_pos ha] at he
      rcases mem_updateFirst _ _ _ _ he with hm | ⟨y, hy, rfl⟩
      · exact h k mk e hm
      · simpa using hrc
    · rw [if_neg ha] at he
      rcases List.mem_append.mp he with hm | hm
      · exact h k mk e hm
      · rcases List.mem_singleton.mp hm with rfl
        simpa using hrc
  · rw [if_neg hcond] at he
    exact h k' mk' e he

theorem SuccessNodup_markContractMonthProcessed {s : PState} (h : SuccessNodup s)
    (k mk c : String) (t : Nat) : SuccessNodup (markContractMonthProcessed s k mk c t) := by
  intro k' mk'
  rw [successList_markContractMonthProcessed]
  by_cases hcond : k = k' ∧ mk = mk'
  · rw [if_pos hcond]
    by_cases hc : c ∈ successList s k mk
    · rw [if_pos hc]
      exact h k mk
    · rw [if_neg hc]
      exact List.Nodup.append (h k mk) (List.nodup_singleton c)
        (by simpa [List.disjoint_singleton] using hc)
  · rw [if_neg hcond]
    exact h k' mk'

theorem SuccessNodup_markContractMonthError {s : PState} (h : SuccessNodup s)
    (k mk c : String) (errs : List String) (co ms : Option String) (p : Option Payload)
    (rc t : Nat) : SuccessNodup (markContractMonthError s k mk c errs co ms p rc t) := by
  intro k' mk'
  rw [successList_markContractMonthError]
  exact h k' mk'

theorem SuccessNodup_removeErrorContract {s : PState} (h : SuccessNodup s)
    (k mk c : String) (t : Nat) : SuccessNodup (removeErrorContract s k mk c t) := by
  intro k' mk'
  rw [successList_removeErrorContract]
  exact h k' mk'

theorem SuccessNodup_updateLastProcessedMonth {s : PState} (h : SuccessNodup s)
    (k : String) (y mo t : Nat) : SuccessNodup (updateLastProcessedMonth s k y mo t) := by
  intro k' mk'
  rw [successList_updateLastProcessedMonth]
  exact h k' mk'

theorem bool_eq_of_iff {a b : Bool} (h : a = true ↔ b = true) : a = b := by
  cases a <;> cases b <;> simp_all

theorem contractInSuccess_markContractMonthProcessed_ne (s : PState) (k mk c : String)
    (t : Nat) (k' mk' c' : String) (hne : ¬c' = c) :
    contractInSuccess (markContractMonthProcessed s k mk c t) k' mk' c' =
      contractInSuccess s k' mk' c' := by
  apply bool_eq_of_iff
  rw [contractInSuccess_markContractMonthProcessed]
  constructor
  · rintro (h | ⟨-, -, h⟩)
    · exact h
    · exact absurd h hne
  · exact fun h => Or.inl h

theorem contractInError_markContractMonthError_ne (s : PState) (k mk c : String)
    (errs : List String) (co ms : Option String) (p : Option Payload) (rc t : Nat)
    (k' mk' c' : String) (hne : ¬c' = c) :
    contractInError (markContractMonthError s k mk c errs co ms p rc t) k' mk' c' =
      contractInError s k' mk' c' := by
  apply bool_eq_of_iff
  rw [contractInError_markContractMonthError]
  constructor
  · rintro (h | ⟨-, -, h⟩)
    · exact h
    · exact absurd h hne
  · exact fun h => Or.inl h

theorem contractInError_removeErrorContract_ne (s : PState) (k mk c : String) (t : Nat)
    (k' mk' c' : String) (hne : ¬c' = c) :
    contractInError (removeErrorContract s k mk c t) k' mk' c' =
      contractInError s k' mk' c' := by
  rw [contractInError_removeErrorContract,
    if_neg (by rintro ⟨-, -, h⟩; exact hne h)]

/-! ## The per-contract attempt loops -/

/-- Every run of the `send_to_clazar` attempt loop for one contract either
leaves the state alone (fuel exhausted without a break), records a success
(error removal followed by the success mark), or records a permanent error
whose retry count is exactly `max_retries`. -/
theorem sendAttemptLoop_cases (resp : Nat → ApiResponse) (M : Nat)
    (sk mk cid : String) (pl : Payload) (t : Nat) :
    ∀ fuel attempt st,
      sendAttemptLoop resp M sk mk cid pl t attempt fuel st =
        (true, markContractMonthProcessed (removeErrorContract st sk mk cid t)
          sk mk cid t) ∨
      sendAttemptLoop resp M sk mk cid pl t attempt fuel st = (false, st) ∨
      (∃ errs co ms, sendAttemptLoop resp M sk mk cid pl t attempt fuel st =
        (false, markContractMonthError st sk mk cid errs (some co) (some ms)
          (some pl) M t)) := by
  intro fuel
  induction fuel with
  | zero => exact fun attempt st => Or.inr (Or.inl rfl)
  | succ fuel ih =>
    intro attempt st
    cases hresp : resp attempt with
    | results rs =>
      by_cases he : hasApiErrors rs
      · by_cases hM : attempt = M
        · subst hM
          refine Or.inr (Or.inr ⟨(extractApiErrors rs).1, (extractApiErrors rs).2.1,
            (extractApiErrors rs).2.2, ?_⟩)
          simp [sendAttemptLoop, hresp, he]
        · have := ih (attempt + 1) st
          simpa [sendAttemptLoop, hresp, he, hM] using this
      · refine Or.inl ?_
        simp [sendAttemptLoop, hresp, he]
    | netError msg =>
      by_cases hM : attempt = M
      · subst hM
        refine Or.inr (Or.inr ⟨[msg], "NETWORK_ERROR", msg, ?_⟩)
        simp [sendAttemptLoop, hresp]
      · have := ih (attempt + 1) st
        simpa [sendAttemptLoop, hresp, hM] using this
    | badShape msg =>
      by_cases hM : attempt = M
      · subst hM
        refine Or.inr (Or.inr ⟨[msg], "UNEXPECTED_ERROR", msg, ?_⟩)
        simp [sendAttemptLoop, hresp]
      · have := ih (attempt + 1) st
        simpa [sendAttemptLoop, hresp, hM] using this

/-- Invariant lifting through the `retry_error_contracts` attempt loop: `P`
holds along the loop (error marks keep it, with retry counts bounded by
`max_retries`) and `Q` holds of every exit state. -/
theorem retryAttemptLoop_invariant (resp : Nat → ApiResponse) (M : Nat)
    (sk mk cid : String) (pl : Payload) (dry : Bool) (t : Nat)
    (P Q : PState → Prop)
    (hPQ : ∀ st, P st → Q st)
    (hErr : ∀ st errs co ms cr, cr ≤ M → P st →
      P (markContractMonthError st sk mk cid errs (some co) (some ms) (some pl) cr t))
    (hSucc : ∀ st, P st →
      Q (markContractMonthProcessed (removeErrorContract st sk mk cid t) sk mk cid t)) :
    ∀ fuel cr st, P st →
      Q (retryAttemptLoop resp M sk mk cid pl dry t cr fuel st).2 := by
  intro fuel
  induction fuel with
  | zero => exact fun cr st hP => hPQ st hP
  | succ fuel ih =>
    intro cr st hP
    by_cases hlt : cr < M
    · by_cases hdry : dry
      · simpa [retryAttemptLoop, hlt, hdry] using hSucc st hP
      · cases hresp : resp (cr + 1) with
        | results rs =>
          by_cases he : hasApiErrors rs
          · have hP' := hErr st (extractApiErrors rs).1 (extractApiErrors rs).2.1
              (extractApiErrors rs).2.2 (cr + 1) hlt hP
            by_cases hstop : M ≤ cr + 1
            · simpa [retryAttemptLoop, hlt, hdry, hresp, he, hstop] using hPQ _ hP'
            · have := ih (cr + 1) _ hP'
              simpa [retryAttemptLoop, hlt, hdry, hresp, he, hstop] using this
          · simpa [retryAttemptLoop, hlt, hdry, hresp, he] using hSucc st hP
        | netError msg =>
          have hP' := hErr st [msg] "RETRY_ERROR" msg (cr + 1) hlt hP
          by_cases hstop : M ≤ cr + 1
          · simpa [retryAttemptLoop, hlt, hdry, hresp, hstop] using hPQ _ hP'
          · have := ih (cr + 1) _ hP'
            simpa [retryAttemptLoop, hlt, hdry, hresp, hstop] using this
        | badShape msg =>
          have hP' := hErr st [msg] "RETRY_ERROR" msg (cr + 1) hlt hP
          by_cases hstop : M ≤ cr + 1
          · simpa [retryAttemptLoop, hlt, hdry, hresp, hstop] using hPQ _ hP'
          · have := ih (cr + 1) _ hP'
            simpa [retryAttemptLoop, hlt, hdry, hresp, hstop] using this
    · simpa [retryAttemptLoop, hlt] using hPQ st hP

/-! ## The per-run contract loops -/

/-- Invariant lifting through the `send_to_clazar` contract loop.  The
hypotheses provide preservation for exactly the state shapes the loop
produces: the dry-run mark, the success pair, and the final error mark (whose
recorded retry count is the loop's `max_retries`). -/
theorem sendContractsLoop_invariant (resp : NetOracle) (M : Nat) (sk mk : String)
    (dry : Bool) (t : Nat) (P : PState → Prop) :
    ∀ (crs : List (String × List MeteringRecord)) (acc : Bool × PState),
      (∀ st c, c ∈ crs.map Prod.fst → P st →
        P (markContractMonthProcessed st sk mk c t)) →
      (∀ st c, c ∈ crs.map Prod.fst → P st →
        P (markContractMonthProcessed (removeErrorContract st sk mk c t) sk mk c t)) →
      (∀ st c errs co ms pl, c ∈ crs.map Prod.fst → P st →
        P (markContractMonthError st sk mk c errs (some co) (some ms) (some pl) M t)) →
      P acc.2 → P (sendContractsLoop resp M sk mk dry t crs acc).2 := by
  intro crs
  induction crs with
  | nil => exact fun acc _ _ _ h => h
  | cons cr rest ih =>
    intro acc hDry hSucc hErrM hP
    have hmem : cr.1 ∈ (cr :: rest).map Prod.fst := by simp
    have hDry' : ∀ st c, c ∈ rest.map Prod.fst → P st →
        P (markContractMonthProcessed st sk mk c t) :=
      fun st c hc => hDry st c (by simp [hc])
    have hSucc' : ∀ st c, c ∈ rest.map Prod.fst → P st →
        P (markContractMonthProcessed (removeErrorContract st sk mk c t) sk mk c t) :=
      fun st c hc => hSucc st c (by simp [hc])
    have hErrM' : ∀ st c errs co ms pl, c ∈ rest.map Prod.fst → P st →
        P (markContractMonthError st sk mk c errs (some co) (some ms) (some pl) M t) :=
      fun st c errs co ms pl hc => hErrM st c errs co ms pl (by simp [hc])
    show P (sendContractsLoop resp M sk mk dry t rest _).2
    by_cases hdry : dry
    · exact ih _ hDry' hSucc' hErrM' (by
        simpa [hdry] using hDry acc.2 cr.1 hmem hP)
    · refine ih _ hDry' hSucc' hErrM' ?_
      simp only [hdry, if_false, Bool.false_eq_true]
      rcases sendAttemptLoop_cases (resp cr.1) M sk mk cr.1 ⟨cr.2⟩ t (M + 1) 0 acc.2 with
        hcase | hcase | ⟨errs, co, ms, hcase⟩ <;> rw [hcase]
      · exact hSucc acc.2 cr.1 hmem hP
      · exact hP
      · exact hErrM acc.2 cr.1 errs co ms ⟨cr.2⟩ hmem hP

/-- Invariant lifting through the `retry_error_contracts` entry loop. -/
theorem retryEntriesLoop_invariant (resp : NetOracle) (M : Nat) (sk mk : String)
    (dry : Bool) (t : Nat) (P : PState → Prop) :
    ∀ (entries : List ErrorEntry) (acc : Bool × PState),
      (∀ st c errs co ms pl cr, c ∈ entries.map ErrorEntry.contract_id → cr ≤ M → P st →
        P (markContractMonthError st sk mk c errs (some co) (some ms) (some pl) cr t)) →
      (∀ st c, c ∈ entries.map ErrorEntry.contract_id → P st →
        P (markContractMonthProcessed (removeErrorContract st sk mk c t) sk mk c t)) →
      P acc.2 → P (retryEntriesLoop resp M sk mk dry t entries acc).2 := by
  intro entries
  induction entries with
  | nil => exact fun acc _ _ h => h
  | cons e rest ih =>
    intro acc hErr hSucc hP
    have hmem : e.contract_id ∈ (e :: rest).map ErrorEntry.contract_id := by simp
    have hErr' : ∀ st c errs co ms pl cr, c ∈ rest.map ErrorEntry.contract_id → cr ≤ M →
        P st → P (markContractMonthError st sk mk c errs (some co) (some ms)
          (some pl) cr t) :=
      fun st c errs co ms pl cr hc => hErr st c errs co ms pl cr (by simp [hc])
    have hSucc' : ∀ st c, c ∈ rest.map ErrorEntry.contract_id → P st →
        P (markContractMonthProcessed (removeErrorContract st sk mk c t) sk mk c t) :=
      fun st c hc => hSucc st c (by simp [hc])
    show P (retryEntriesLoop resp M sk mk dry t rest _).2
    by_cases hskip : e.contract_id.data.isEmpty ∨ e.payload.isNone
    · refine ih _ hErr' hSucc' ?_
      rw [if_pos hskip]
      exact hP
    · refine ih _ hErr' hSucc' ?_
      rw [if_neg hskip]
      exact retryAttemptLoop_invariant (resp e.contract_id) M sk mk e.contract_id
        (e.payload.getD ⟨[]⟩) dry t P P (fun _ h => h)
        (fun st errs co ms cr hcr hPst => hErr st e.contract_id errs co ms
          (e.payload.getD ⟨[]⟩) cr hmem hcr hPst)
        (fun st hPst => hSucc st e.contract_id hmem hPst)
        (M - e.retry_count.getD 0) (e.retry_count.getD 0) acc.2 hP

/-! ## Run-level invariant preservation -/

theorem RetryBound_sendToClazar {M : Nat} {s : PState} (h : RetryBound M s)
    (resp : NetOracle) (batch : Dict (String × String) Int) (st et : String)
    (y mo : Nat) (sk cloud : String) (dry tok : Bool) (t : Nat) :
    RetryBound M (sendToClazar resp batch st et y mo sk M cloud dry tok t s).2 := by
  unfold sendToClazar
  split_ifs with h1 h2
  · exact h
  · exact h
  · exact sendContractsLoop_invariant resp M sk (getMonthKey y mo) dry t (RetryBound M) _ _
      (fun st' c _ hP => RetryBound_markContractMonthProcessed hP sk (getMonthKey y mo) c t)
      (fun st' c _ hP => RetryBound_markContractMonthProcessed
        (RetryBound_removeErrorContract hP sk (getMonthKey y mo) c t) sk (getMonthKey y mo) c t)
      (fun st' c errs co ms pl _ hP => RetryBound_markContractMonthError hP sk
        (getMonthKey y mo) c errs (some co) (some ms) (some pl) t (Nat.le_refl M))
      h

theorem RetryBound_retryErrorContracts {M : Nat} {s : PState} (h : RetryBound M s)
    (resp : NetOracle) (sk : String) (y mo : Nat) (dry : Bool) (t : Nat) :
    RetryBound M (retryErrorContracts resp s sk y mo M dry t).2 := by
  simp only [retryErrorContracts]
  split_ifs with h1
  · exact h
  · exact retryEntriesLoop_invariant resp M sk (getMonthKey y mo) dry t (RetryBound M) _ _
      (fun st' c errs co ms pl cr _ hcr hP => RetryBound_markContractMonthError hP sk
        (getMonthKey y mo) c errs (some co) (some ms) (some pl) t hcr)
      (fun st' c _ hP => RetryBound_markContractMonthProcessed
        (RetryBound_removeErrorContract hP sk (getMonthKey y mo) c t) sk (getMonthKey y mo) c t)
      h

theorem SuccessNodup_sendToClazar {s : PState} (h : SuccessNodup s)
    (resp : NetOracle) (batch : Dict (String × String) Int) (st et : String)
    (y mo : Nat) (sk : String) (M : Nat) (cloud : String) (dry tok : Bool) (t : Nat) :
    SuccessNodup (sendToClazar resp batch st et y mo sk M cloud dry tok t s).2 := by
  unfold sendToClazar
  split_ifs with h1 h2
  · exact h
  · exact h
  · exact sendContractsLoop_invariant resp M sk (getMonthKey y mo) dry t SuccessNodup _ _
      (fun st' c _ hP => SuccessNodup_markContractMonthProcessed hP sk (getMonthKey y mo) c t)
      (fun st' c _ hP => SuccessNodup_markContractMonthProcessed
        (SuccessNodup_removeErrorContract hP sk (getMonthKey y mo) c t) sk (getMonthKey y mo) c t)
      (fun st' c errs co ms pl _ hP => SuccessNodup_markContractMonthError hP sk
        (getMonthKey y mo) c errs (some co) (some ms) (some pl) M t)
      h

theorem SuccessNodup_retryErrorContracts {s : PState} (h : SuccessNodup s)
    (resp : NetOracle) (sk : String) (y mo : Nat) (M : Nat) (dry : Bool) (t : Nat) :
    SuccessNodup (retryErrorContracts resp s sk y mo M dry t).2 := by
  simp only [retryErrorContracts]
  split_ifs with h1
  · exact h
  · exact retryEntriesLoop_invariant resp M sk (getMonthKey y mo) dry t SuccessNodup _ _
      (fun st' c errs co ms pl cr _ hcr hP => SuccessNodup_markContractMonthError hP sk
        (getMonthKey y mo) c errs (some co) (some ms) (some pl) cr t)
      (fun st' c _ hP => SuccessNodup_markContractMonthProcessed
        (SuccessNodup_removeErrorContract hP sk (getMonthKey y mo) c t) sk (getMonthKey y mo) c t)
      h

theorem cursorStr_sendToClazar (s : PState) (resp : NetOracle)
    (batch : Dict (String × String) Int) (st et : String) (y mo : Nat) (sk : String)
    (M : Nat) (cloud : String) (dry tok : Bool) (t : Nat) (x : String) :
    cursorStr (sendToClazar resp batch st et y mo sk M cloud dry tok t s).2 x =
      cursorStr s x := by
  unfold sendToClazar
  split_ifs with h1 h2
  · rfl
  · rfl
  · exact sendContractsLoop_invariant resp M sk (getMonthKey y mo) dry t
      (fun st' => cursorStr st' x = cursorStr s x) _ _
      (fun st' c _ hP => by
        show cursorStr (markContractMonthProcessed st' sk (getMonthKey y mo) c t) x =
          cursorStr s x
        rw [cursorStr_markContractMonthProcessed]; exact hP)
      (fun st' c _ hP => by
        show cursorStr (markContractMonthProcessed
          (removeErrorContract st' sk (getMonthKey y mo) c t) sk (getMonthKey y mo) c t) x =
          cursorStr s x
        rw [cursorStr_markContractMonthProcessed, cursorStr_removeErrorContract]; exact hP)
      (fun st' c errs co ms pl _ hP => by
        show cursorStr (markContractMonthError st' sk (getMonthKey y mo) c errs (some co)
          (some ms) (some pl) M t) x = cursorStr s x
        rw [cursorStr_markContractMonthError]; exact hP)
      rfl

theorem cursorStr_retryErrorContracts (s : PState) (resp : NetOracle) (sk : String)
    (y mo : Nat) (M : Nat) (dry : Bool) (t : Nat) (x : String) :
    cursorStr (retryErrorContracts resp s sk y mo M dry t).2 x = cursorStr s x := by
  simp only [retryErrorContracts]
  split_ifs with h1
  · rfl
  · exact retryEntriesLoop_invariant resp M sk (getMonthKey y mo) dry t
      (fun st' => cursorStr st' x = cursorStr s x) _ _
      (fun st' c errs co ms pl cr _ hcr hP => by
        show cursorStr (markContractMonthError st' sk (getMonthKey y mo) c errs (some co)
          (some ms) (some pl) cr t) x = cursorStr s x
        rw [cursorStr_markContractMonthError]; exact hP)
      (fun st' c _ hP => by
        show cursorStr (markContractMonthProcessed
          (removeErrorContract st' sk (getMonthKey y mo) c t) sk (getMonthKey y mo) c t) x =
          cursorStr s x
        rw [cursorStr_markContractMonthProcessed, cursorStr_removeErrorContract]; exact hP)
      rfl

theorem cursorStr_processMonth (retryResp sendResp : NetOracle) (evalO : EvalOracle)
    (cd : Dict String String) (files : List (List UsageRecord)) (s : PState)
    (sk : String) (y mo M : Nat) (cloud : String) (dry tok : Bool) (t : Nat)
    (x : String) :
    cursorStr (processMonth retryResp sendResp evalO cd files s sk y mo M cloud
      dry tok t).2 x = cursorStr s x := by
  simp only [processMonth]
  have hretry := cursorStr_retryErrorContracts s retryResp sk y mo M dry t x
  split_ifs <;>
    first
      | exact hretry
      | (rw [cursorStr_sendToClazar]; exact hretry)

theorem isProcessed_decomp {s : PState} {k mk c : String}
    (h : isContractMonthProcessed s k mk c = false) :
    contractInSuccess s k mk c = false ∧ contractInError s k mk c = false := by
  rw [isContractMonthProcessed_eq] at h
  exact ⟨(Bool.or_eq_false_iff.mp h).1, (Bool.or_eq_false_iff.mp h).2⟩

theorem isProcessed_markProcessed_ne (s : PState) (k mk c : String) (t : Nat)
    (k' mk' c' : String) (hne : ¬c' = c) :
    isContractMonthProcessed (markContractMonthProcessed s k mk c t) k' mk' c' =
      isContractMonthProcessed s k' mk' c' := by
  rw [isContractMonthProcessed_eq, isContractMonthProcessed_eq,
    contractInSuccess_markContractMonthProcessed_ne s k mk c t k' mk' c' hne,
    contractInError_markContractMonthProcessed]

theorem isProcessed_markError_ne (s : PState) (k mk c : String) (errs : List String)
    (co ms : Option String) (p : Option Payload) (rc t : Nat)
    (k' mk' c' : String) (hne : ¬c' = c) :
    isContractMonthProcessed (markContractMonthError s k mk c errs co ms p rc t) k' mk' c' =
      isContractMonthProcessed s k' mk' c' := by
  rw [isContractMonthProcessed_eq, isContractMonthProcessed_eq,
    contractInSuccess_markContractMonthError,
    contractInError_markContractMonthError_ne s k mk c errs co ms p rc t k' mk' c' hne]

theorem isProcessed_removeError_ne (s : PState) (k mk c : String) (t : Nat)
    (k' mk' c' : String) (hne : ¬c' = c) :
    isContractMonthProcessed (removeErrorContract s k mk c t) k' mk' c' =
      isContractMonthProcessed s k' mk' c' := by
  rw [isContractMonthProcessed_eq, isContractMonthProcessed_eq,
    contractInSuccess_removeErrorContract,
    contractInError_removeErrorContract_ne s k mk c t k' mk' c' hne]

theorem map_fst_dset {α β : Type} [DecidableEq α] (d : Dict α β) (k : α) (v : β) :
    (dset d k v).map Prod.fst =
      if k ∈ d.map Prod.fst then d.map Prod.fst else d.map Prod.fst ++ [k] := by
  induction d with
  | nil => simp [dset]
  | cons kv rest ih =>
    obtain ⟨k₀, v₀⟩ := kv
    by_cases h₀ : k₀ = k
    · subst h₀
      simp [dset]
    · have h₀' : ¬k = k₀ := fun e => h₀ e.symm
      by_cases hm : k ∈ rest.map Prod.fst <;> simp [dset, h₀, h₀', hm, ih]

theorem nodup_keys_dset {α β : Type} [DecidableEq α] {d : Dict α β}
    (h : (d.map Prod.fst).Nodup) (k : α) (v : β) :
    ((dset d k v).map Prod.fst).Nodup := by
  rw [map_fst_dset]
  by_cases hm : k ∈ d.map Prod.fst
  · rw [if_pos hm]; exact h
  · rw [if_neg hm]
    exact List.Nodup.append h (List.nodup_singleton k)
      (by simpa [List.disjoint_singleton] using hm)

theorem contractRecords_keys_nodup (cloud st et : String)
    (batch : Dict (String × String) Int) :
    ((contractRecords cloud st et batch).map Prod.fst).Nodup := by
  unfold contractRecords
  induction batch using List.reverseRecOn with
  | nil => simp
  | append_singleton rest kv ih =>
    rw [List.foldl_append]
    exact nodup_keys_dset ih _ _

theorem getErrorContractsForRetry_eq (s : PState) (sk mk : String) (M : Nat) :
    getErrorContractsForRetry s sk mk M =
      (errorList s sk mk).filter (fun e => decide (e.retry_count.getD 0 < M)) := by
  have hscan : ∀ l : List ErrorEntry, getErrorContractsForRetry.retryScan M l =
      l.filter (fun e => decide (e.retry_count.getD 0 < M)) := by
    intro l
    induction l with
    | nil => rfl
    | cons e rest ih =>
      by_cases hlt : e.retry_count.getD 0 < M <;>
        simp [getErrorContractsForRetry.retryScan, List.filter_cons, hlt, ih]
  unfold getErrorContractsForRetry errorList getService
  cases hs : dget s sk with
  | none => simp [ServiceState.empty, dget]
  | some svc =>
    cases he : dget svc.error_contracts mk with
    | none => simp [he]
    | some lst => simpa [he] using hscan lst

theorem contractInError_of_mem_errorList {s : PState} {sk mk : String} {e : ErrorEntry}
    (he : e ∈ errorList s sk mk) : contractInError s sk mk e.contract_id = true := by
  unfold contractInError
  exact List.any_eq_true.mpr ⟨e, he, by simp⟩

theorem sendContractsLoop_exclusive (resp : NetOracle) (M : Nat) (sk mk : String)
    (dry : Bool) (t : Nat) :
    ∀ (crs : List (String × List MeteringRecord)) (acc : Bool × PState),
      Exclusive acc.2 →
      (∀ cr ∈ crs, isContractMonthProcessed acc.2 sk mk cr.1 = false) →
      (crs.map Prod.fst).Nodup →
      Exclusive (sendContractsLoop resp M sk mk dry t crs acc).2 := by
  intro crs
  induction crs with
  | nil => exact fun acc hex _ _ => hex
  | cons cr rest ih =>
    intro acc hex hun hnd
    obtain ⟨hsf, hef⟩ := isProcessed_decomp (hun cr (List.mem_cons_self cr rest))
    have hni : cr.1 ∉ rest.map Prod.fst := (List.nodup_cons.mp hnd).1
    have hnd' : (rest.map Prod.fst).Nodup := (List.nodup_cons.mp hnd).2
    have hne : ∀ cr' ∈ rest, ¬cr'.1 = cr.1 := by
      intro cr' hmem heq
      exact hni (heq ▸ List.mem_map_of_mem Prod.fst hmem)
    show Exclusive (sendContractsLoop resp M sk mk dry t rest _).2
    by_cases hdry : dry
    · rw [if_pos hdry]
      refine ih _ (Exclusive_markProcessed_of_noError hex t hef) ?_ hnd'
      intro cr' hmem
      rw [isProcessed_markProcessed_ne acc.2 sk mk cr.1 t sk mk cr'.1 (hne cr' hmem)]
      exact hun cr' (List.mem_cons_of_mem cr hmem)
    · rw [if_neg hdry]
      rcases sendAttemptLoop_cases (resp cr.1) M sk mk cr.1 ⟨cr.2⟩ t (M + 1) 0 acc.2 with
        hcase | hcase | ⟨errs, co, ms, hcase⟩ <;> rw [hcase]
      · refine ih _ (Exclusive_successPair hex sk mk cr.1 t t) ?_ hnd'
        intro cr' hmem
        rw [isProcessed_markProcessed_ne _ sk mk cr.1 t sk mk cr'.1 (hne cr' hmem),
          isProcessed_removeError_ne acc.2 sk mk cr.1 t sk mk cr'.1 (hne cr' hmem)]
        exact hun cr' (List.mem_cons_of_mem cr hmem)
      · refine ih _ hex ?_ hnd'
        exact fun cr' hmem => hun cr' (List.mem_cons_of_mem cr hmem)
      · refine ih _ (Exclusive_markError_of_noSuccess hex errs (some co) (some ms)
          (some ⟨cr.2⟩) M t hsf) ?_ hnd'
        intro cr' hmem
        rw [isProcessed_markError_ne acc.2 sk mk cr.1 errs (some co) (some ms)
          (some ⟨cr.2⟩) M t sk mk cr'.1 (hne cr' hmem)]
        exact hun cr' (List.mem_cons_of_mem cr hmem)

theorem retryEntriesLoop_exclusive (resp : NetOracle) (M : Nat) (sk mk : String)
    (dry : Bool) (t : Nat) :
    ∀ (entries : List ErrorEntry) (acc : Bool × PState),
      Exclusive acc.2 →
      (∀ e ∈ entries, contractInSuccess acc.2 sk mk e.contract_id = false) →
      (entries.map ErrorEntry.contract_id).Nodup →
      Exclusive (retryEntriesLoop resp M sk mk dry t entries acc).2 := by
  intro entries
  induction entries with
  | nil => exact fun acc hex _ _ => hex
  | cons e rest ih =>
    intro acc hex hsu hnd
    have hsf : contractInSuccess acc.2 sk mk e.contract_id = false :=
      hsu e (List.mem_cons_self e rest)
    have hni : e.contract_id ∉ rest.map ErrorEntry.contract_id := (List.nodup_cons.mp hnd).1
    have hnd' : (rest.map ErrorEntry.contract_id).Nodup := (List.nodup_cons.mp hnd).2
    have hne : ∀ e' ∈ rest, ¬e'.contract_id = e.contract_id := by
      intro e' hmem heq
      exact hni (heq ▸ List.mem_map_of_mem ErrorEntry.contract_id hmem)
    show Exclusive (retryEntriesLoop resp M sk mk dry t rest _).2
    by_cases hskip : e.contract_id.data.isEmpty ∨ e.payload.isNone
    · rw [if_pos hskip]
      exact ih _ hex (fun e' hmem => hsu e' (List.mem_cons_of_mem e hmem)) hnd'
    · rw [if_neg hskip]
      have hex' : Exclusive (retryAttemptLoop (resp e.contract_id) M sk mk e.contract_id
          (e.payload.getD ⟨[]⟩) dry t (e.retry_count.getD 0)
          (M - e.retry_count.getD 0) acc.2).2 := by
        refine retryAttemptLoop_invariant (resp e.contract_id) M sk mk e.contract_id
          (e.payload.getD ⟨[]⟩) dry t
          (fun st => Exclusive st ∧ contractInSuccess st sk mk e.contract_id = false)
          Exclusive (fun _ h => h.1) ?_ ?_ _ _ _ ⟨hex, hsf⟩
        · rintro st errs co ms cr hcr ⟨hst, hsub⟩
          refine ⟨Exclusive_markError_of_noSuccess hst errs (some co) (some ms)
            (some (e.payload.getD ⟨[]⟩)) cr t hsub, ?_⟩
          rw [contractInSuccess_markContractMonthError]
          exact hsub
        · rintro st ⟨hst, -⟩
          exact Exclusive_successPair hst sk mk e.contract_id t t
      refine ih _ hex' ?_ hnd'
      intro e' hmem
      refine retryAttemptLoop_invariant (resp e.contract_id) M sk mk e.contract_id
        (e.payload.getD ⟨[]⟩) dry t
        (fun st => contractInSuccess st sk mk e'.contract_id = false)
        (fun st => contractInSuccess st sk mk e'.contract_id = false)
        (fun _ h => h) ?_ ?_ _ _ _ (hsu e' (List.mem_cons_of_mem e hmem))
      · intro st errs co ms cr hcr hst
        rw [contractInSuccess_markContractMonthError]
        exact hst
      · intro st hst
        rw [contractInSuccess_markContractMonthProcessed_ne _ sk mk e.contract_id t sk mk
          e'.contract_id (hne e' hmem), contractInSuccess_removeErrorContract]
        exact hst

theorem getLastProcessedMonth_eq_cursor (s : PState) (k : String) :
    getLastProcessedMonth s k =
      match cursorStr s k with
      | none => none
      | some str => if str.data.isEmpty then none else parseMonthKey str := by
  unfold getLastProcessedMonth cursorStr getService
  cases dget s k with
  | none => rfl
  | some svc => rfl

/-! ## Round trip of the `YYYY-MM` month keys -/

theorem natDigitsAux_congr : ∀ (n fuel fuel' : Nat), n < fuel → n < fuel' →
    natDigitsAux fuel n = natDigitsAux fuel' n := by
  intro n
  induction n using Nat.strong_induction_on with
  | _ n ih =>
    intro fuel fuel' hf hf'
    cases fuel with
    | zero => omega
    | succ f =>
      cases fuel' with
      | zero => omega
      | succ f' =>
        rw [natDigitsAux, natDigitsAux]
        split_ifs with h
        · rfl
        · have hdiv : n / 10 < n := Nat.div_lt_self (by omega) (by norm_num)
          rw [ih (n / 10) hdiv f f' (by omega) (by omega)]

theorem natDigits_eq (n : Nat) : natDigits n =
    if n < 10 then [Char.ofNat (48 + n)]
    else natDigits (n / 10) ++ [Char.ofNat (48 + n % 10)] := by
  show natDigitsAux (n + 1) n = _
  rw [natDigitsAux]
  split_ifs with h
  · rfl
  · have hdiv : n / 10 < n := Nat.div_lt_self (by omega) (by norm_num)
    rw [natDigitsAux_congr (n / 10) n (n / 10 + 1) (by omega) (by omega)]
    rfl

theorem natDigits_ne_nil (n : Nat) : natDigits n ≠ [] := by
  rw [natDigits_eq]
  split_ifs <;> simp

theorem digit_toNat {n : Nat} (h : n < 10) : (Char.ofNat (48 + n)).toNat = 48 + n := by
  interval_cases n <;> decide

theorem isDigitChar_digit {n : Nat} (h : n < 10) :
    isDigitChar (Char.ofNat (48 + n)) = true := by
  interval_cases n <;> decide

theorem natDigits_all_digits (n : Nat) : ∀ c ∈ natDigits n, isDigitChar c = true := by
  induction n using Nat.strong_induction_on with
  | _ n ih =>
    rw [natDigits_eq]
    split_ifs with h
    · intro c hc
      rw [List.mem_singleton] at hc
      subst hc
      exact isDigitChar_digit h
    · intro c hc
      rcases List.mem_append.mp hc with hc | hc
      · exact ih (n / 10) (Nat.div_lt_self (by omega) (by norm_num)) c hc
      · rw [List.mem_singleton] at hc
        subst hc
        exact isDigitChar_digit (Nat.mod_lt n (by norm_num))

theorem foldl_natDigits (n : Nat) : ∀ a : Nat,
    (natDigits n).foldl (fun a c => a * 10 + (c.toNat - 48)) a =
      a * 10 ^ (natDigits n).length + n := by
  induction n using Nat.strong_induction_on with
  | _ n ih =>
    intro a
    rw [natDigits_eq]
    split_ifs with h
    · simp [digit_toNat h]
    · have hd : n / 10 < n := Nat.div_lt_self (by omega) (by norm_num)
      rw [List.foldl_append, ih (n / 10) hd a, List.length_append, List.length_singleton]
      have hmod : (Char.ofNat (48 + n % 10)).toNat = 48 + n % 10 :=
        digit_toNat (Nat.mod_lt n (by norm_num))
      simp only [List.foldl_cons, List.foldl_nil, hmod, pow_succ]
      have hdm := Nat.div_add_mod n 10
      generalize (10 : Nat) ^ (natDigits (n / 10)).length = p at *
      have : a * p * 10 + n / 10 * 10 + (48 + n % 10 - 48) = a * (p * 10) + n := by
        have h1 : a * p * 10 = a * (p * 10) := by ring
        omega
      omega

theorem foldl_replicate_zero (k : Nat) : ∀ a : Nat,
    (List.replicate k '0').foldl (fun a c => a * 10 + (c.toNat - 48)) a = a * 10 ^ k := by
  induction k with
  | zero => simp
  | succ k ih =>
    intro a
    rw [List.replicate_succ, List.foldl_cons, ih]
    have : '0'.toNat = 48 := by decide
    rw [this, pow_succ]
    ring

theorem parseDigits_padZero (w n : Nat) : parseDigits (padZero w (natDigits n)) = some n := by
  unfold parseDigits padZero
  rw [if_pos]
  · congr 1
    rw [List.foldl_append, foldl_replicate_zero, Nat.zero_mul, foldl_natDigits, Nat.zero_mul,
      Nat.zero_add]
  · constructor
    · simp [natDigits_ne_nil n]
    · rw [List.all_eq_true]
      intro c hc
      rcases List.mem_append.mp hc with hc | hc
      · rw [List.eq_of_mem_replicate hc]
        decide
      · exact natDigits_all_digits n c hc

theorem padZero_all_digits (w n : Nat) :
    ∀ c ∈ padZero w (natDigits n), isDigitChar c = true := by
  intro c hc
  rcases List.mem_append.mp hc with hc | hc
  · rw [List.eq_of_mem_replicate hc]
    decide
  · exact natDigits_all_digits n c hc

theorem isDigitChar_ne_dash {c : Char} (h : isDigitChar c = true) : ¬c = '-' := by
  intro he
  subst he
  exact absurd h (by decide)

theorem splitChar_no_sep {sep : Char} :
    ∀ l : List Char, (∀ c ∈ l, ¬c = sep) → splitChar sep l = [l] := by
  intro l
  induction l with
  | nil => intro _; rfl
  | cons c rest ih =>
    intro h
    have hc : ¬c = sep := h c (List.mem_cons_self c rest)
    have hr := ih (fun c' hc' => h c' (List.mem_cons_of_mem c hc'))
    simp [splitChar, hc, hr]

theorem splitChar_append {sep : Char} :
    ∀ (l1 l2 : List Char), (∀ c ∈ l1, ¬c = sep) →
      splitChar sep (l1 ++ sep :: l2) = l1 :: splitChar sep l2 := by
  intro l1
  induction l1 with
  | nil => intro l2 _; simp [splitChar]
  | cons c rest ih =>
    intro l2 h
    have hc : ¬c = sep := h c (List.mem_cons_self c rest)
    have hr := ih l2 (fun c' hc' => h c' (List.mem_cons_of_mem c hc'))
    simp [splitChar, hc, hr]

theorem parseMonthKey_getMonthKey (y m : Nat) :
    parseMonthKey (getMonthKey y m) = some (y, m) := by
  unfold parseMonthKey getMonthKey monthKeyChars
  show (match splitChar '-' (padZero 4 (natDigits y) ++ '-' :: padZero 2 (natDigits m)) with
    | [a, b] =>
      match parseDigits a, parseDigits b with
      | some y, some m => some (y, m)
      | _, _ => none
    | _ => none) = some (y, m)
  rw [splitChar_append (padZero 4 (natDigits y)) (padZero 2 (natDigits m))
    (fun c hc => isDigitChar_ne_dash (padZero_all_digits 4 y c hc))]
  rw [splitChar_no_sep (padZero 2 (natDigits m))
    (fun c hc => isDigitChar_ne_dash (padZero_all_digits 2 m c hc))]
  simp [parseDigits_padZero]

theorem getMonthKey_data_not_empty (y m : Nat) :
    (getMonthKey y m).data.isEmpty = false := by
  show (padZero 4 (natDigits y) ++ '-' :: padZero 2 (natDigits m)).isEmpty = false
  simp [padZero]

/-! ## Reachable ledger states

The state document starts empty (`load_state` returns `{}` when the file does
not exist) and is mutated only by the mark/remove/cursor operations and by
whole `send_to_clazar` / `retry_error_contracts` runs, all sharing one
`max_retries` value. -/

inductive Reachable (M : Nat) : PState → Prop where
  | init : Reachable M []
  | markProcessed {s : PState} (h : Reachable M s) (k mk c : String) (t : Nat) :
      Reachable M (markContractMonthProcessed s k mk c t)
  | removeError {s : PState} (h : Reachable M s) (k mk c : String) (t : Nat) :
      Reachable M (removeErrorContract s k mk c t)
  | updateCursor {s : PState} (h : Reachable M s) (k : String) (y mo t : Nat) :
      Reachable M (updateLastProcessedMonth s k y mo t)
  | sendRun {s : PState} (h : Reachable M s) (resp : NetOracle)
      (batch : Dict (String × String) Int) (st et : String) (y mo : Nat)
      (sk cloud : String) (dry tok : Bool) (t : Nat) :
      Reachable M (sendToClazar resp batch st et y mo sk M cloud dry tok t s).2
  | retryRun {s : PState} (h : Reachable M s) (resp : NetOracle) (sk : String)
      (y mo : Nat) (dry : Bool) (t : Nat) :
      Reachable M (retryErrorContracts resp s sk y mo M dry t).2

theorem errorList_nil (k mk : String) : errorList [] k mk = [] := rfl

theorem successList_nil (k mk : String) : successList [] k mk = [] := rfl

theorem Reachable_retryBound {M : Nat} {s : PState} (h : Reachable M s) :
    RetryBound M s := by
  induction h with
  | init =>
    intro k mk e he
    rw [errorList_nil] at he
    cases he
  | markProcessed h k mk c t ih => exact RetryBound_markContractMonthProcessed ih k mk c t
  | removeError h k mk c t ih => exact RetryBound_removeErrorContract ih k mk c t
  | updateCursor h k y mo t ih => exact RetryBound_updateLastProcessedMonth ih k y mo t
  | sendRun h resp batch st et y mo sk cloud dry tok t ih =>
    exact RetryBound_sendToClazar ih resp batch st et y mo sk cloud dry tok t
  | retryRun h resp sk y mo dry t ih =>
    exact RetryBound_retryErrorContracts ih resp sk y mo dry t

theorem Reachable_successNodup {M : Nat} {s : PState} (h : Reachable M s) :
    SuccessNodup s := by
  induction h with
  | init =>
    intro k mk
    rw [successList_nil]
    exact List.nodup_nil
  | markProcessed h k mk c t ih => exact SuccessNodup_markContractMonthProcessed ih k mk c t
  | removeError h k mk c t ih => exact SuccessNodup_removeErrorContract ih k mk c t
  | updateCursor h k y mo t ih => exact SuccessNodup_updateLastProcessedMonth ih k y mo t
  | sendRun h resp batch st et y mo sk cloud dry tok t ih =>
    exact SuccessNodup_sendToClazar ih resp batch st et y mo sk M cloud dry tok t
  | retryRun h resp sk y mo dry t ih =>
    exact SuccessNodup_retryErrorContracts ih resp sk y mo M dry t

/-! ## Success-tracking through the send loop (for the delivery-result claim) -/

theorem contractInSuccess_true_markProcessed {s : PState} {k' mk' c' : String}
    (h : contractInSuccess s k' mk' c' = true) (k mk c : String) (t : Nat) :
    contractInSuccess (markContractMonthProcessed s k mk c t) k' mk' c' = true :=
  (contractInSuccess_markContractMonthProcessed s k mk c t k' mk' c').mpr (Or.inl h)

/-- A success record, once written, survives the rest of the contract loop. -/
theorem sendContractsLoop_success_mono (resp : NetOracle) (M : Nat) (sk mk : String)
    (dry : Bool) (t : Nat) (crs : List (String × List MeteringRecord))
    (acc : Bool × PState) (k' mk' c' : String)
    (h : contractInSuccess acc.2 k' mk' c' = true) :
    contractInSuccess (sendContractsLoop resp M sk mk dry t crs acc).2 k' mk' c' = true := by
  refine sendContractsLoop_invariant resp M sk mk dry t
    (fun st => contractInSuccess st k' mk' c' = true) crs acc ?_ ?_ ?_ h
  · exact fun st c _ hP => contractInSuccess_true_markProcessed hP sk mk c t
  · intro st c _ hP
    refine contractInSuccess_true_markProcessed ?_ sk mk c t
    rw [contractInSuccess_removeErrorContract]
    exact hP
  · intro st c errs co ms pl _ hP
    rw [contractInSuccess_markContractMonthError]
    exact hP

/-- A contract that appears in none of the remaining loop entries keeps its
success status through the loop. -/
theorem sendContractsLoop_success_frame (resp : NetOracle) (M : Nat) (sk mk : String)
    (dry : Bool) (t : Nat) (crs : List (String × List MeteringRecord))
    (acc : Bool × PState) (c' : String) (hni : c' ∉ crs.map Prod.fst) :
    contractInSuccess (sendContractsLoop resp M sk mk dry t crs acc).2 sk mk c' =
      contractInSuccess acc.2 sk mk c' := by
  refine sendContractsLoop_invariant resp M sk mk dry t
    (fun st => contractInSuccess st sk mk c' = contractInSuccess acc.2 sk mk c')
    crs acc ?_ ?_ ?_ rfl
  · intro st c hc hP
    have hne : ¬c' = c := fun e => hni (e ▸ hc)
    rw [contractInSuccess_markContractMonthProcessed_ne st sk mk c t sk mk c' hne]
    exact hP
  · intro st c hc hP
    have hne : ¬c' = c := fun e => hni (e ▸ hc)
    rw [contractInSuccess_markContractMonthProcessed_ne _ sk mk c t sk mk c' hne,
      contractInSuccess_removeErrorContract]
    exact hP
  · intro st c errs co ms pl hc hP
    rw [contractInSuccess_markContractMonthError]
    exact hP

/-- The loop's `all_success` flag is true exactly when the flag came in true
and every contract of the remaining entries is recorded successful in the
final state (assuming the entries' contracts are unresolved and pairwise
distinct, as `filter_success_contracts` guarantees at the call site). -/
theorem sendContractsLoop_spec (resp : NetOracle) (M : Nat) (sk mk : String)
    (dry : Bool) (t : Nat) :
    ∀ (crs : List (String × List MeteringRecord)) (acc : Bool × PState),
      (∀ cr ∈ crs, contractInSuccess acc.2 sk mk cr.1 = false) →
      (crs.map Prod.fst).Nodup →
      ((sendContractsLoop resp M sk mk dry t crs acc).1 = true ↔
        (acc.1 = true ∧ ∀ cr ∈ crs,
          contractInSuccess (sendContractsLoop resp M sk mk dry t crs acc).2
            sk mk cr.1 = true)) := by
  intro crs
  induction crs with
  | nil =>
    intro acc _ _
    simp [sendContractsLoop]
  | cons cr rest ih =>
    intro acc hun hnd
    have hsf : contractInSuccess acc.2 sk mk cr.1 = false :=
      hun cr (List.mem_cons_self cr rest)
    have hni : cr.1 ∉ rest.map Prod.fst := (List.nodup_cons.mp hnd).1
    have hnd' : (rest.map Prod.fst).Nodup := (List.nodup_cons.mp hnd).2
    have hne : ∀ cr' ∈ rest, ¬cr'.1 = cr.1 := by
      intro cr' hmem heq
      exact hni (heq ▸ List.mem_map_of_mem Prod.fst hmem)
    have hstep : sendContractsLoop resp M sk mk dry t (cr :: rest) acc =
        sendContractsLoop resp M sk mk dry t rest
          (if dry then (acc.1, markContractMonthProcessed acc.2 sk mk cr.1 t)
           else (acc.1 &&
              (sendAttemptLoop (resp cr.1) M sk mk cr.1 ⟨cr.2⟩ t 0 (M + 1) acc.2).1,
             (sendAttemptLoop (resp cr.1) M sk mk cr.1 ⟨cr.2⟩ t 0 (M + 1) acc.2).2)) := rfl
    rw [hstep]
    by_cases hdry : dry
    · rw [if_pos hdry]
      have hmarked : contractInSuccess (markContractMonthProcessed acc.2 sk mk cr.1 t)
          sk mk cr.1 = true :=
        (contractInSuccess_markContractMonthProcessed acc.2 sk mk cr.1 t sk mk cr.1).mpr
          (Or.inr ⟨rfl, rfl, rfl⟩)
      have hun' : ∀ cr' ∈ rest, contractInSuccess
          (markContractMonthProcessed acc.2 sk mk cr.1 t) sk mk cr'.1 = false := by
        intro cr' hmem
        rw [contractInSuccess_markContractMonthProcessed_ne acc.2 sk mk cr.1 t sk mk cr'.1
          (hne cr' hmem)]
        exact hun cr' (List.mem_cons_of_mem cr hmem)
      rw [ih (acc.1, markContractMonthProcessed acc.2 sk mk cr.1 t) hun' hnd']
      constructor
      · rintro ⟨h1, h2⟩
        refine ⟨h1, ?_⟩
        intro cr' hmem
        rcases List.mem_cons.mp hmem with rfl | hmem'
        · exact sendContractsLoop_success_mono resp M sk mk dry t rest
            (acc.1, markContractMonthProcessed acc.2 sk mk cr'.1 t) sk mk cr'.1 hmarked
        · exact h2 cr' hmem'
      · rintro ⟨h1, h2⟩
        exact ⟨h1, fun cr' hmem => h2 cr' (List.mem_cons_of_mem cr hmem)⟩
    · rw [if_neg hdry]
      rcases sendAttemptLoop_cases (resp cr.1) M sk mk cr.1 ⟨cr.2⟩ t (M + 1) 0 acc.2 with
        hcase | hcase | ⟨errs, co, ms, hcase⟩ <;>
        rw [hcase] <;> dsimp only
      · -- the contract succeeded: flag carried, success recorded and kept
        rw [Bool.and_true]
        have hmarked : contractInSuccess (markContractMonthProcessed
            (removeErrorContract acc.2 sk mk cr.1 t) sk mk cr.1 t) sk mk cr.1 = true :=
          (contractInSuccess_markContractMonthProcessed _ sk mk cr.1 t sk mk cr.1).mpr
            (Or.inr ⟨rfl, rfl, rfl⟩)
        have hun' : ∀ cr' ∈ rest, contractInSuccess (markContractMonthProcessed
            (removeErrorContract acc.2 sk mk cr.1 t) sk mk cr.1 t) sk mk cr'.1 = false := by
          intro cr' hmem
          rw [contractInSuccess_markContractMonthProcessed_ne _ sk mk cr.1 t sk mk cr'.1
            (hne cr' hmem), contractInSuccess_removeErrorContract]
          exact hun cr' (List.mem_cons_of_mem cr hmem)
        rw [ih (acc.1, markContractMonthProcessed
          (removeErrorContract acc.2 sk mk cr.1 t) sk mk cr.1 t) hun' hnd']
        constructor
        · rintro ⟨h1, h2⟩
          refine ⟨h1, ?_⟩
          intro cr' hmem
          rcases List.mem_cons.mp hmem with rfl | hmem'
          · exact sendContractsLoop_success_mono resp M sk mk dry t rest
              (acc.1, markContractMonthProcessed
                (removeErrorContract acc.2 sk mk cr'.1 t) sk mk cr'.1 t) sk mk cr'.1 hmarked
          · exact h2 cr' hmem'
        · rintro ⟨h1, h2⟩
          exact ⟨h1, fun cr' hmem => h2 cr' (List.mem_cons_of_mem cr hmem)⟩
      · -- fuel ran out without a break; the flag is cleared and the contract
        -- is never recorded successful
        rw [Bool.and_false]
        have hfin : contractInSuccess (sendContractsLoop resp M sk mk dry t rest
            (false, acc.2)).2 sk mk cr.1 = false := by
          rw [sendContractsLoop_success_frame resp M sk mk dry t rest (false, acc.2)
            cr.1 hni]
          exact hsf
        have hflag := ih (false, acc.2)
          (fun cr' hmem => hun cr' (List.mem_cons_of_mem cr hmem)) hnd'
        constructor
        · intro h1
          rcases (hflag.mp h1) with ⟨h2, -⟩
          cases h2
        · rintro ⟨-, h2⟩
          have := h2 cr (List.mem_cons_self cr rest)
          rw [hfin] at this
          cases this
      · -- the contract exhausted its attempts: permanent error, flag cleared
        rw [Bool.and_false]
        have hun' : ∀ cr' ∈ rest, contractInSuccess (markContractMonthError acc.2 sk mk
            cr.1 errs (some co) (some ms) (some ⟨cr.2⟩) M t) sk mk cr'.1 = false := by
          intro cr' hmem
          rw [contractInSuccess_markContractMonthError]
          exact hun cr' (List.mem_cons_of_mem cr hmem)
        have hfin : contractInSuccess (sendContractsLoop resp M sk mk dry t rest
            (false, markContractMonthError acc.2 sk mk cr.1 errs (some co) (some ms)
              (some ⟨cr.2⟩) M t)).2 sk mk cr.1 = false := by
          rw [sendContractsLoop_success_frame resp M sk mk dry t rest
            (false, markContractMonthError acc.2 sk mk cr.1 errs (some co) (some ms)
              (some ⟨cr.2⟩) M t) cr.1 hni,
            contractInSuccess_markContractMonthError]
          exact hsf
        have hflag := ih (false, markContractMonthError acc.2 sk mk cr.1 errs (some co)
          (some ms) (some ⟨cr.2⟩) M t) hun' hnd'
        constructor
        · intro h1
          rcases (hflag.mp h1) with ⟨h2, -⟩
          cases h2
        · rintro ⟨-, h2⟩
          have := h2 cr (List.mem_cons_self cr rest)
          rw [hfin] at this
          cases this

theorem dset_ne_nil {α β : Type} [DecidableEq α] (d : Dict α β) (k : α) (v : β) :
    dset d k v ≠ [] := by
  cases d with
  | nil => simp [dset]
  | cons kv rest =>
    unfold dset
    split_ifs <;> simp

theorem contractRecords_ne_nil (cloud st et : String)
    (batch : Dict (String × String) Int) (hb : ¬batch.isEmpty = true) :
    contractRecords cloud st et batch ≠ [] := by
  unfold contractRecords
  cases batch with
  | nil => simp at hb
  | cons kv rest =>
    rw [List.foldl_cons]
    have : ∀ (l : List ((String × String) × Int)) (d : Dict String (List MeteringRecord)),
        d ≠ [] → l.foldl (fun d kv =>
          dset d kv.1.1 ((dget d kv.1.1).getD [] ++
            [{ cloud := cloud, contract_id := kv.1.1, dimension := kv.1.2,
               start_time := st, end_time := et, quantity := kv.2 }])) d ≠ [] := by
      intro l
      induction l with
      | nil => exact fun d hd => hd
      | cons kv' rest' ih =>
        intro d hd
        rw [List.foldl_cons]
        exact ih _ (dset_ne_nil d kv'.1.1 _)
    exact this rest _ (dset_ne_nil [] kv.1.1 _)

/-! ## Fail-closed dimension transformation -/

/-- A formula evaluation the code treats as a failure: a raised exception (or
non-numeric result), or a numeric result below zero. -/
def failsFor (evalO : EvalOracle) (formula : String) (ctx : EvalContext) : Prop :=
  match evalO formula ctx with
  | .error _ => True
  | .ok v => v < 0

theorem dget_filter_contract (c : String) (k : String × String) (hk : ¬k.1 = c) :
    ∀ T : Dict (String × String) Int,
      dget (T.filter (fun kv => !(kv.1.1 = c : Bool))) k = dget T k := by
  intro T
  induction T with
  | nil => rfl
  | cons kv rest ih =>
    by_cases h : kv.1.1 = c
    · have hne : ¬kv.1 = k := fun e => hk (e ▸ h)
      simp [List.filter_cons, h, dget, hne, ih]
    · by_cases h2 : kv.1 = k <;> simp [List.filter_cons, h, dget, h2, hk, ih]

theorem dget_filter_contract_self (c : String) (d : String) :
    ∀ T : Dict (String × String) Int,
      dget (T.filter (fun kv => !(kv.1.1 = c : Bool))) (c, d) = none := by
  intro T
  induction T with
  | nil => rfl
  | cons kv rest ih =>
    by_cases h : kv.1.1 = c
    · simp [List.filter_cons, h, ih]
    · have hne : ¬kv.1 = (c, d) := fun e => h (by rw [e])
      simp [List.filter_cons, h, dget, hne, ih]

theorem dget_none_of_any_false (c d : String) :
    ∀ T : Dict (String × String) Int,
      T.any (fun kv => kv.1.1 = c) = false → dget T (c, d) = none := by
  intro T
  induction T with
  | nil => intro _; rfl
  | cons kv rest ih =>
    intro h
    rw [List.any_cons, Bool.or_eq_false_iff] at h
    have hne : ¬kv.1 = (c, d) := fun e => by
      rw [e] at h
      simp at h
    rw [dget, if_neg hne]
    exact ih h.2

theorem dget_dropContract_self (cid : String) (T : Dict (String × String) Int)
    (d : String) : dget (transformLoop.dropContract cid T) (cid, d) = none := by
  unfold transformLoop.dropContract
  by_cases ha : T.any (fun kv => kv.1.1 = cid)
  · rw [if_pos ha]
    exact dget_filter_contract_self cid d T
  · rw [if_neg ha]
    exact dget_none_of_any_false cid d T (Bool.not_eq_true _ ▸ ha)

theorem dget_dropContract_ne (cid : String) (T : Dict (String × String) Int)
    (k : String × String) (hk : ¬k.1 = cid) :
    dget (transformLoop.dropContract cid T) k = dget T k := by
  unfold transformLoop.dropContract
  by_cases ha : T.any (fun kv => kv.1.1 = cid)
  · rw [if_pos ha]
    exact dget_filter_contract cid k hk T
  · rw [if_neg ha]

theorem transformLoop_frame (evalO : EvalOracle) (cid : String) (ctx : EvalContext) :
    ∀ (cds : List (String × String)) (T : Dict (String × String) Int)
      (k : String × String), ¬k.1 = cid →
      dget (transformLoop evalO cid ctx T cds) k = dget T k := by
  intro cds
  induction cds with
  | nil => exact fun T k _ => rfl
  | cons nf rest ih =>
    intro T k hk
    obtain ⟨name, formula⟩ := nf
    show dget (match evalO formula ctx with
      | .ok res => if res < 0 then transformLoop.dropContract cid T
          else transformLoop evalO cid ctx (dset T (cid, name) res) rest
      | .error _ => transformLoop.dropContract cid T) k = dget T k
    cases hev : evalO formula ctx with
    | error e => exact dget_dropContract_ne cid T k hk
    | ok v =>
      dsimp only
      by_cases hneg : v < 0
      · rw [if_pos hneg]
        exact dget_dropContract_ne cid T k hk
      · rw [if_neg hneg, ih (dset T (cid, name) v) k hk, dget_dset,
          if_neg (fun e : (cid, name) = k => hk (by rw [← e]))]

theorem transformLoop_at_eq (evalO : EvalOracle) (cid : String) (ctx : EvalContext) :
    ∀ (cds : List (String × String)) (T T' : Dict (String × String) Int),
      (∀ d, dget T (cid, d) = dget T' (cid, d)) →
      ∀ d, dget (transformLoop evalO cid ctx T cds) (cid, d) =
        dget (transformLoop evalO cid ctx T' cds) (cid, d) := by
  intro cds
  induction cds with
  | nil => exact fun T T' h d => h d
  | cons nf rest ih =>
    intro T T' h d
    obtain ⟨name, formula⟩ := nf
    show dget (match evalO formula ctx with
      | .ok res => if res < 0 then transformLoop.dropContract cid T
          else transformLoop evalO cid ctx (dset T (cid, name) res) rest
      | .error _ => transformLoop.dropContract cid T) (cid, d) =
      dget (match evalO formula ctx with
      | .ok res => if res < 0 then transformLoop.dropContract cid T'
          else transformLoop evalO cid ctx (dset T' (cid, name) res) rest
      | .error _ => transformLoop.dropContract cid T') (cid, d)
    cases hev : evalO formula ctx with
    | error e => rw [dget_dropContract_self, dget_dropContract_self]
    | ok v =>
      dsimp only
      by_cases hneg : v < 0
      · rw [if_pos hneg, if_pos hneg, dget_dropContract_self, dget_dropContract_self]
      · rw [if_neg hneg, if_neg hneg]
        refine ih (dset T (cid, name) v) (dset T' (cid, name) v) ?_ d
        intro d'
        rw [dget_dset, dget_dset]
        by_cases he : (cid, name) = (cid, d')
        · rw [if_pos he, if_pos he]
        · rw [if_neg he, if_neg he]
          exact h d'

theorem transformLoop_fails_none (evalO : EvalOracle) (cid : String) (ctx : EvalContext) :
    ∀ (cds : List (String × String)) (T : Dict (String × String) Int),
      (∃ nf ∈ cds, failsFor evalO nf.2 ctx) →
      ∀ d, dget (transformLoop evalO cid ctx T cds) (cid, d) = none := by
  intro cds
  induction cds with
  | nil => rintro T ⟨nf, hmem, -⟩; cases hmem
  | cons nf0 rest ih =>
    rintro T ⟨nf, hmem, hfail⟩ d
    obtain ⟨name, formula⟩ := nf0
    show dget (match evalO formula ctx with
      | .ok res => if res < 0 then transformLoop.dropContract cid T
          else transformLoop evalO cid ctx (dset T (cid, name) res) rest
      | .error _ => transformLoop.dropContract cid T) (cid, d) = none
    cases hev : evalO formula ctx with
    | error e => exact dget_dropContract_self cid T d
    | ok v =>
      dsimp only
      by_cases hneg : v < 0
      · rw [if_pos hneg]
        exact dget_dropContract_self cid T d
      · rw [if_neg hneg]
        rcases List.mem_cons.mp hmem with rfl | hmem'
        · exfalso
          unfold failsFor at hfail
          rw [hev] at hfail
          exact hneg hfail
        · exact ih (dset T (cid, name) v) ⟨nf, hmem', hfail⟩ d

theorem groupByContract_keys_nodup (A : Dict (String × String) Int) :
    ((groupByContract A).map Prod.fst).Nodup := by
  unfold groupByContract
  induction A using List.reverseRecOn with
  | nil => simp
  | append_singleton rest kv ih =>
    rw [List.foldl_append]
    exact nodup_keys_dset ih _ _

theorem transformFold_char (evalO : EvalOracle) (cds : List (String × String)) :
    ∀ (gs : List (String × Dict String Int)) (T : Dict (String × String) Int),
      (gs.map Prod.fst).Nodup →
      (∀ g ∈ gs, ∀ d, dget T (g.1, d) = none) →
      (∀ g ∈ gs, ∀ d,
        dget (gs.foldl (fun tr c => transformLoop evalO c.1 (evalContext c.2) tr cds) T)
          (g.1, d) =
          dget (transformLoop evalO g.1 (evalContext g.2) [] cds) (g.1, d)) ∧
      (∀ k : String × String, k.1 ∉ gs.map Prod.fst →
        dget (gs.foldl (fun tr c => transformLoop evalO c.1 (evalContext c.2) tr cds) T)
          k = dget T k) := by
  intro gs
  induction gs with
  | nil => exact fun T _ _ => ⟨fun g hg => absurd hg (List.not_mem_nil g), fun k _ => rfl⟩
  | cons g rest ih =>
    intro T hnd hnone
    have hni : g.1 ∉ rest.map Prod.fst := (List.nodup_cons.mp hnd).1
    have hnd' : (rest.map Prod.fst).Nodup := (List.nodup_cons.mp hnd).2
    have hne : ∀ g' ∈ rest, ¬g'.1 = g.1 := by
      intro g' hmem heq
      exact hni (heq ▸ List.mem_map_of_mem Prod.fst hmem)
    have hnone' : ∀ g' ∈ rest, ∀ d,
        dget (transformLoop evalO g.1 (evalContext g.2) T cds) (g'.1, d) = none := by
      intro g' hmem d
      rw [transformLoop_frame evalO g.1 (evalContext g.2) cds T (g'.1, d) (hne g' hmem)]
      exact hnone g' (List.mem_cons_of_mem g hmem) d
    obtain ⟨ihA, ihB⟩ := ih (transformLoop evalO g.1 (evalContext g.2) T cds) hnd' hnone'
    constructor
    · intro g' hmem d
      rcases List.mem_cons.mp hmem with rfl | hmem'
      · rw [List.foldl_cons, ihB (g'.1, d) hni]
        exact transformLoop_at_eq evalO g'.1 (evalContext g'.2) cds T [] (fun d' => by
          rw [hnone g' (List.mem_cons_self g' rest) d']
          rfl) d
      · rw [List.foldl_cons]
        exact ihA g' hmem' d
    · intro k hk
      have hk1 : k.1 ∉ rest.map Prod.fst := fun h => hk (by simp [h])
      have hkg : ¬k.1 = g.1 := fun h => hk (by simp [h])
      rw [List.foldl_cons, ihB k hk1,
        transformLoop_frame evalO g.1 (evalContext g.2) cds T k hkg]

/-! ## Aggregation totals -/

/-- The aggregation key a record contributes to (`None` when the record is
skipped for a falsy payer or dimension). -/
def recordKey (r : UsageRecord) : Option (String × String) :=
  if truthyStr r.externalPayerId ∧ truthyStr r.dimension then
    some (r.externalPayerId.getD "", r.dimension.getD "")
  else none

/-- The mathematical total for a key: the sum of the values of the records
contributing to it. -/
def usageTotal (l : List UsageRecord) (k : String × String) : Int :=
  ((l.filter (fun r => recordKey r = some k)).map UsageRecord.value).sum

theorem dget_aggregateUsageData (l : List UsageRecord) (k : String × String) :
    (dget (aggregateUsageData l) k).getD 0 = usageTotal l k := by
  have aux : ∀ (l : List UsageRecord) (d : Dict (String × String) Int),
      (dget (l.foldl (fun d r =>
        if truthyStr r.externalPayerId ∧ truthyStr r.dimension then
          dset d ((r.externalPayerId.getD ""), (r.dimension.getD ""))
            ((dget d ((r.externalPayerId.getD ""), (r.dimension.getD ""))).getD 0 + r.value)
        else d) d) k).getD 0 = (dget d k).getD 0 + usageTotal l k := by
    intro l
    induction l with
    | nil => intro d; simp [usageTotal]
    | cons r rest ih =>
      intro d
      by_cases hv : truthyStr r.externalPayerId ∧ truthyStr r.dimension
      · rw [List.foldl_cons, if_pos hv, ih]
        by_cases hk : ((r.externalPayerId.getD ""), (r.dimension.getD "")) = k
        · have hkey : recordKey r = some k := by
            unfold recordKey
            rw [if_pos hv, hk]
          rw [dget_dset, if_pos hk]
          unfold usageTotal
          rw [List.filter_cons, if_pos (by simp [hkey]), List.map_cons, List.sum_cons]
          simp only [Option.getD_some]
          rw [hk]
          omega
        · have hkey : ¬recordKey r = some k := by
            unfold recordKey
            rw [if_pos hv]
            simp [hk]
          rw [dget_dset, if_neg hk]
          unfold usageTotal
          rw [List.filter_cons, if_neg (by simp [hkey])]
      · rw [List.foldl_cons, if_neg hv, ih]
        have hkey : ¬recordKey r = some k := by
          unfold recordKey
          rw [if_neg hv]
          simp
        unfold usageTotal
        rw [List.filter_cons, if_neg (by simp [hkey])]
  have := aux l []
  unfold aggregateUsageData
  rw [this]
  simp [dget]

theorem usageTotal_perm {l l' : List UsageRecord} (h : l.Perm l') (k : String × String) :
    usageTotal l k = usageTotal l' k :=
  List.Perm.sum_eq (List.Perm.map UsageRecord.value
    (List.Perm.filter (fun r => recordKey r = some k) h))

theorem usageTotal_append (l₁ l₂ : List UsageRecord) (k : String × String) :
    usageTotal (l₁ ++ l₂) k = usageTotal l₁ k + usageTotal l₂ k := by
  unfold usageTotal
  rw [List.filter_append, List.map_append, List.sum_append]

theorem usageTotal_flatten (parts : List (List UsageRecord)) (k : String × String) :
    usageTotal parts.flatten k = (parts.map (fun p => usageTotal p k)).sum := by
  induction parts with
  | nil => rfl
  | cons p rest ih =>
    rw [List.flatten_cons, usageTotal_append, List.map_cons, List.sum_cons, ih]

/-! ## Exclusivity-preserving steps

The transitions along which the Success/Error exclusivity invariant is
maintained: the success path always removes the error entry *before* marking
success, errors are only recorded for entities not currently marked
successful, and whole delivery runs over unresolved batches. -/

theorem Exclusive_updateLastProcessedMonth {s : PState} (h : Exclusive s)
    (k : String) (y mo t : Nat) : Exclusive (updateLastProcessedMonth s k y mo t) := by
  rintro k' mk' c' ⟨hsu, herr⟩
  unfold contractInSuccess at hsu
  unfold contractInError at herr
  rw [successList_updateLastProcessedMonth] at hsu
  rw [errorList_updateLastProcessedMonth] at herr
  exact h k' mk' c' ⟨hsu, herr⟩

theorem Exclusive_sendToClazar {s : PState} (h : Exclusive s) (resp : NetOracle)
    (batch : Dict (String × String) Int) (st et : String) (y mo : Nat)
    (sk : String) (M : Nat) (cloud : String) (dry tok : Bool) (t : Nat)
    (hun : ∀ cid ∈ (contractRecords cloud st et batch).map Prod.fst,
      isContractMonthProcessed s sk (getMonthKey y mo) cid = false) :
    Exclusive (sendToClazar resp batch st et y mo sk M cloud dry tok t s).2 := by
  unfold sendToClazar
  split_ifs with h1 h2
  · exact h
  · exact h
  · refine sendContractsLoop_exclusive resp M sk (getMonthKey y mo) dry t
      (contractRecords cloud st et batch) (true, s) h ?_
      (contractRecords_keys_nodup cloud st et batch)
    exact fun cr hmem => hun cr.1 (List.mem_map_of_mem Prod.fst hmem)

theorem Exclusive_retryErrorContracts {s : PState} (h : Exclusive s) (resp : NetOracle)
    (sk : String) (y mo : Nat) (M : Nat) (dry : Bool) (t : Nat)
    (hnd : ((getErrorContractsForRetry s sk (getMonthKey y mo) M).map
      ErrorEntry.contract_id).Nodup) :
    Exclusive (retryErrorContracts resp s sk y mo M dry t).2 := by
  simp only [retryErrorContracts]
  split_ifs with h1
  · exact h
  · refine retryEntriesLoop_exclusive resp M sk (getMonthKey y mo) dry t
      (getErrorContractsForRetry s sk (getMonthKey y mo) M) (true, s) h ?_ hnd
    intro e hmem
    have he : e ∈ errorList s sk (getMonthKey y mo) := by
      rw [getErrorContractsForRetry_eq] at hmem
      exact List.mem_of_mem_filter hmem
    have herr := contractInError_of_mem_errorList he
    by_cases hb : contractInSuccess s sk (getMonthKey y mo) e.contract_id = true
    · exact absurd ⟨hb, herr⟩ (h sk (getMonthKey y mo) e.contract_id)
    · exact Bool.not_eq_true _ ▸ hb

/-- A single exclusivity-preserving transition of the ledger. -/
inductive ExclStep : PState → PState → Prop where
  | removeError (s : PState) (k mk c : String) (t : Nat) :
      ExclStep s (removeErrorContract s k mk c t)
  | successPair (s : PState) (k mk c : String) (t t' : Nat) :
      ExclStep s (markContractMonthProcessed (removeErrorContract s k mk c t) k mk c t')
  | markError (s : PState) (k mk c : String) (errs : List String)
      (co ms : Option String) (p : Option Payload) (rc t : Nat)
      (h : contractInSuccess s k mk c = false) :
      ExclStep s (markContractMonthError s k mk c errs co ms p rc t)
  | updateCursor (s : PState) (k : String) (y mo t : Nat) :
      ExclStep s (updateLastProcessedMonth s k y mo t)
  | sendRun (s : PState) (resp : NetOracle) (batch : Dict (String × String) Int)
      (st et : String) (y mo : Nat) (sk : String) (M : Nat) (cloud : String)
      (dry tok : Bool) (t : Nat)
      (h : ∀ cid ∈ (contractRecords cloud st et batch).map Prod.fst,
        isContractMonthProcessed s sk (getMonthKey y mo) cid = false) :
      ExclStep s (sendToClazar resp batch st et y mo sk M cloud dry tok t s).2
  | retryRun (s : PState) (resp : NetOracle) (sk : String) (y mo : Nat) (M : Nat)
      (dry : Bool) (t : Nat)
      (h : ((getErrorContractsForRetry s sk (getMonthKey y mo) M).map
        ErrorEntry.contract_id).Nodup) :
      ExclStep s (retryErrorContracts resp s sk y mo M dry t).2

theorem ExclStep_preserves {s s' : PState} (hstep : ExclStep s s') (h : Exclusive s) :
    Exclusive s' := by
  cases hstep with
  | removeError k mk c t => exact Exclusive_removeErrorContract h k mk c t
  | successPair k mk c t t' => exact Exclusive_successPair h k mk c t t'
  | markError k mk c errs co ms p rc t hs =>
    exact Exclusive_markError_of_noSuccess h errs co ms p rc t hs
  | updateCursor k y mo t => exact Exclusive_updateLastProcessedMonth h k y mo t
  | sendRun resp batch st et y mo sk M cloud dry tok t hun =>
    exact Exclusive_sendToClazar h resp batch st et y mo sk M cloud dry tok t hun
  | retryRun resp sk y mo M dry t hnd =>
    exact Exclusive_retryErrorContracts h resp sk y mo M dry t hnd

/-! ## Idempotence support -/

theorem dset_dset {α β : Type} [DecidableEq α] (d : Dict α β) (k : α) (v w : β) :
    dset (dset d k v) k w = dset d k w := by
  induction d with
  | nil => simp [dset]
  | cons kv rest ih =>
    obtain ⟨k₀, v₀⟩ := kv
    by_cases h : k₀ = k
    · simp [dset, h]
    · simp [dset, h, ih]

/-- Strip every `last_updated` timestamp from the state document. -/
def eraseLastUpdated (s : PState) : PState :=
  s.map (fun kv => (kv.1, { kv.2 with last_updated := none }))

theorem eraseLastUpdated_dset (s : PState) (k : String) (svc : ServiceState) :
    eraseLastUpdated (dset s k svc) =
      dset (eraseLastUpdated s) k { svc with last_updated := none } := by
  induction s with
  | nil => rfl
  | cons kv rest ih =>
    obtain ⟨k₀, v₀⟩ := kv
    by_cases h : k₀ = k
    · simp [dset, h, eraseLastUpdated]
    · simp only [dset, if_neg h, eraseLastUpdated, List.map_cons]
      refine congrArg _ ?_
      simpa [eraseLastUpdated] using ih

theorem getNextMonthToProcess_eq (s : PState) (u : UsageState) (sk : String)
    (dflt : Nat × Nat) :
    getNextMonthToProcess s u sk dflt =
      match getLatestMonthWithCompleteUsageData u sk with
      | none => none
      | some latest =>
        let next := match getLastProcessedMonth s sk with
          | none => dflt
          | some (y, mo) => if mo = 12 then (y + 1, 1) else (y, mo + 1)
        if next.1 > latest.1 ∨ (next.1 = latest.1 ∧ next.2 > latest.2) then none
        else some next := rfl

theorem getNextMonthToProcess_some (s : PState) (u : UsageState) (sk : String)
    (dflt : Nat × Nat) (r : Nat × Nat)
    (h : getNextMonthToProcess s u sk dflt = some r) :
    (∀ w, getLatestMonthWithCompleteUsageData u sk = some w → monthLe r w) ∧
    (∀ prev, getLastProcessedMonth s sk = some prev → monthLt prev r) := by
  obtain ⟨dy, dm⟩ := dflt
  rw [getNextMonthToProcess_eq] at h
  revert h
  cases hw : getLatestMonthWithCompleteUsageData u sk with
  | none =>
    intro h
    cases h
  | some latest =>
    obtain ⟨ly, lm⟩ := latest
    cases hl : getLastProcessedMonth s sk with
    | none =>
      dsimp only
      intro h
      split_ifs at h with hc
      injection h with h'
      subst h'
      push_neg at hc
      refine ⟨?_, ?_⟩
      · intro w hw'
        injection hw' with hww
        subst hww
        simp only [monthLe, monthLt, Prod.mk.injEq]
        omega
      · intro prev hp
        cases hp
    | some prev =>
      obtain ⟨py, pm⟩ := prev
      dsimp only
      by_cases hpm : pm = 12
      · rw [if_pos hpm]
        intro h
        split_ifs at h with hc
        injection h with h'
        subst h'
        push_neg at hc
        refine ⟨?_, ?_⟩
        · intro w hw'
          injection hw' with hww
          subst hww
          simp only [monthLe, monthLt, Prod.mk.injEq]
          omega
        · intro prev' hp
          injection hp with hpp
          subst hpp
          simp only [monthLt]
          omega
      · rw [if_neg hpm]
        intro h
        split_ifs at h with hc
        injection h with h'
        subst h'
        push_neg at hc
        refine ⟨?_, ?_⟩
        · intro w hw'
          injection hw' with hww
          subst hww
          simp only [monthLe, monthLt, Prod.mk.injEq]
          omega
        · intro prev' hp
          injection hp with hpp
          subst hpp
          unfold monthLt
          exact Or.inr ⟨rfl, Nat.lt_succ_self pm⟩

/-! # Claims -/

/-- C4: `get_next_month_to_process` returns the default start month when no
last-processed month is recorded, otherwise the calendar-month successor of
the last-processed month (December rolling over to January of the next
year); it returns `None` exactly when the watermark cannot be determined or
when that candidate month is strictly later than the watermark month, and
any month it does return is the candidate and never exceeds the
watermark. -/
theorem C4_next_month_spec (s : PState) (u : UsageState) (sk : String)
    (dflt : Nat × Nat) :
    (getNextMonthToProcess s u sk dflt = none ↔
      getLatestMonthWithCompleteUsageData u sk = none ∨
      ∃ w, getLatestMonthWithCompleteUsageData u sk = some w ∧
        monthLt w (match getLastProcessedMonth s sk with
          | none => dflt
          | some (y, mo) => if mo = 12 then (y + 1, 1) else (y, mo + 1))) ∧
    (∀ r, getNextMonthToProcess s u sk dflt = some r →
      r = (match getLastProcessedMonth s sk with
          | none => dflt
          | some (y, mo) => if mo = 12 then (y + 1, 1) else (y, mo + 1)) ∧
      ∀ w, getLatestMonthWithCompleteUsageData u sk = some w → monthLe r w) := by
  rw [getNextMonthToProcess_eq]
  cases hw : getLatestMonthWithCompleteUsageData u sk with
  | none =>
    refine ⟨⟨fun _ => Or.inl rfl, fun _ => rfl⟩, ?_⟩
    intro r hr
    cases hr
  | some w =>
    obtain ⟨wy, wm⟩ := w
    generalize hnext : (match getLastProcessedMonth s sk with
      | none => dflt
      | some (y, mo) => if mo = 12 then (y + 1, 1) else (y, mo + 1)) = next
    obtain ⟨ny, nm⟩ := next
    dsimp only
    constructor
    · by_cases hcond : ny > wy ∨ (ny = wy ∧ nm > wm)
      · rw [if_pos hcond]
        constructor
        · intro _
          refine Or.inr ⟨(wy, wm), rfl, ?_⟩
          simp only [monthLt]
          omega
        · intro _
          rfl
      · rw [if_neg hcond]
        constructor
        · intro hx
          cases hx
        · rintro (hx | ⟨w', hw', hlt⟩)
          · cases hx
          · injection hw' with he
            subst he
            simp only [monthLt] at hlt
            exact absurd (by omega) hcond
    · intro r hr
      by_cases hcond : ny > wy ∨ (ny = wy ∧ nm > wm)
      · rw [if_pos hcond] at hr
        cases hr
      · rw [if_neg hcond] at hr
        injection hr with he
        subst he
        refine ⟨rfl, ?_⟩
        rintro w' hw'
        injection hw' with he'
        subst he'
        simp only [monthLe, monthLt, Prod.ext_iff]
        omega

/-- C4 witness: with cursor `2025-03` and a watermark of `2025-03`, the
candidate `2025-04` exceeds the watermark and the function reports
caught-up. -/
theorem C4_witness :
    getNextMonthToProcess
      [("Svc:PROD:p1", ⟨some (getMonthKey 2025 3), [], [], none⟩)]
      [("Svc:PROD:p1", ⟨some ⟨2025, 3, 31, 23, 59, 59⟩⟩)] "Svc:PROD:p1"
      (2025, 1) = none :=
  (C4_next_month_spec [("Svc:PROD:p1", ⟨some (getMonthKey 2025 3), [], [], none⟩)]
    [("Svc:PROD:p1", ⟨some ⟨2025, 3, 31, 23, 59, 59⟩⟩)] "Svc:PROD:p1" (2025, 1)).1.mpr
    (Or.inr ⟨(2025, 3), by decide, by decide⟩)

/-- C8: aggregation is order- and split-insensitive: permuting the usage
records or partitioning them into sublists summed key-wise yields the same
per-key totals, and the three-record scenario from the specification
aggregates as stated. -/
theorem C8_aggregation_insensitive :
    (∀ (l l' : List UsageRecord), l.Perm l' → ∀ k,
      (dget (aggregateUsageData l) k).getD 0 = (dget (aggregateUsageData l') k).getD 0) ∧
    (∀ (parts : List (List UsageRecord)) (k : String × String),
      (dget (aggregateUsageData parts.flatten) k).getD 0 =
        (parts.map (fun p => (dget (aggregateUsageData p) k).getD 0)).sum) ∧
    (aggregateUsageData [⟨some "E1", some "dimA", 10⟩, ⟨some "E1", some "dimA", 5⟩,
      ⟨some "E2", some "dimA", 20⟩] = [(("E1", "dimA"), 15), (("E2", "dimA"), 20)]) := by
  refine ⟨?_, ?_, by decide⟩
  · intro l l' hp k
    rw [dget_aggregateUsageData, dget_aggregateUsageData]
    exact usageTotal_perm hp k
  · intro parts k
    rw [dget_aggregateUsageData, usageTotal_flatten]
    have he : (fun p => (dget (aggregateUsageData p) k).getD 0) =
        fun p => usageTotal p k := funext fun p => dget_aggregateUsageData p k
    rw [he]

/-- C8 witness: a concrete two-record permutation yields the same totals. -/
theorem C8_witness :
    (dget (aggregateUsageData [⟨some "E1", some "dimA", 10⟩,
      ⟨some "E2", some "dimA", 20⟩]) ("E2", "dimA")).getD 0 =
    (dget (aggregateUsageData [⟨some "E2", some "dimA", 20⟩,
      ⟨some "E1", some "dimA", 10⟩]) ("E2", "dimA")).getD 0 :=
  C8_aggregation_insensitive.1 _ _ (List.Perm.swap _ _ _) ("E2", "dimA")

/-- C9 counterexample: updating an existing error entry with `code=None` and
`message=None` keeps the old `code`/`message` instead of overwriting them
with the latest call's values, contradicting the claim's "overwrites the
entry's code, message, payload ... with the latest call's values". -/
theorem C9_counterexample :
    (errorList (markContractMonthError
        (markContractMonthError [] "Svc:PROD:p1" "2025-01" "E1" ["boom"]
          (some "API_ERROR") (some "bad dim") none 0 0)
        "Svc:PROD:p1" "2025-01" "E1" ["again"] none none none 1 1)
      "Svc:PROD:p1" "2025-01").map ErrorEntry.code = [some "API_ERROR"] ∧
    ¬((errorList (markContractMonthError
        (markContractMonthError [] "Svc:PROD:p1" "2025-01" "E1" ["boom"]
          (some "API_ERROR") (some "bad dim") none 0 0)
        "Svc:PROD:p1" "2025-01" "E1" ["again"] none none none 1 1)
      "Svc:PROD:p1" "2025-01").map ErrorEntry.code = [none]) := by decide

/-- C9 (amended): `mark_contract_month_error` touches only its own
(service, month) error list; with no existing entry for the contract it
appends a fresh entry carrying the given messages and retry count, storing
`code`/`message` only when truthy and the payload as given; with an existing
entry it appends the new messages to the first matching entry, always
replaces `retry_count` (and the retry timestamp), but overwrites
`code`/`message`/`payload` only when the new value is truthy. -/
theorem C9_mark_error_semantics (s : PState) (k mk c : String) (errs : List String)
    (co ms : Option String) (p : Option Payload) (rc t : Nat) :
    (∀ k' mk', ¬(k = k' ∧ mk = mk') →
      errorList (markContractMonthError s k mk c errs co ms p rc t) k' mk' =
        errorList s k' mk') ∧
    ((errorList s k mk).any (fun e => e.contract_id = c) = false →
      errorList (markContractMonthError s k mk c errs co ms p rc t) k mk =
        errorList s k mk ++
          [{ contract_id := c, errors := errs, retry_count := some rc,
             last_retry_time := some t,
             code := if truthyStr co then co else none,
             message := if truthyStr ms then ms else none, payload := p }]) ∧
    ((errorList s k mk).any (fun e => e.contract_id = c) = true →
      errorList (markContractMonthError s k mk c errs co ms p rc t) k mk =
        updateFirst (fun e => e.contract_id = c)
          (fun e =>
            { e with errors := e.errors ++ errs,
                     code := if truthyStr co then co else e.code,
                     message := if truthyStr ms then ms else e.message,
                     payload := if p.isSome then p else e.payload,
                     retry_count := some rc, last_retry_time := some t })
          (errorList s k mk)) := by
  refine ⟨?_, ?_, ?_⟩
  · intro k' mk' hne
    rw [errorList_markContractMonthError, if_neg hne]
  · intro ha
    rw [errorList_markContractMonthError, if_pos ⟨rfl, rfl⟩]
    unfold markedErrorList
    rw [ha]
    rfl
  · intro ha
    rw [errorList_markContractMonthError, if_pos ⟨rfl, rfl⟩]
    unfold markedErrorList
    rw [ha]
    rfl

/-- C9 witness: marking an error in the empty state creates exactly the
described fresh entry. -/
theorem C9_witness :
    errorList (markContractMonthError [] "Svc:PROD:p1" "2025-01" "E1" ["boom"]
        (some "API_ERROR") (some "bad dim") none 3 9) "Svc:PROD:p1" "2025-01" =
      errorList ([] : PState) "Svc:PROD:p1" "2025-01" ++
        [{ contract_id := "E1", errors := ["boom"], retry_count := some 3,
           last_retry_time := some 9,
           code := if truthyStr (some "API_ERROR") then some "API_ERROR" else none,
           message := if truthyStr (some "bad dim") then some "bad dim" else none,
           payload := none }] :=
  (C9_mark_error_semantics [] "Svc:PROD:p1" "2025-01" "E1" ["boom"]
    (some "API_ERROR") (some "bad dim") none 3 9).2.1 (by decide)

/-- C6: fail-closed derived dimensions: with a non-empty custom-dimension
map, if any formula for a contract raises or returns a negative (or
non-numeric) value, the transformed output has no entry at all for that
contract; every other contract's entries are exactly the ones computed from
its own dimensions alone, so they are unaffected. -/
theorem C6_fail_closed (evalO : EvalOracle) (cds : Dict String String)
    (aggregated : Dict (String × String) Int) (c : String) (dims : Dict String Int)
    (hcds : ¬cds.isEmpty = true)
    (hg : (c, dims) ∈ groupByContract aggregated)
    (hfail : ∃ nf ∈ cds, failsFor evalO nf.2 (evalContext dims)) :
    (∀ d, dget (transformDimensions evalO cds aggregated) (c, d) = none) ∧
    (∀ g ∈ groupByContract aggregated, ¬g.1 = c → ∀ d,
      dget (transformDimensions evalO cds aggregated) (g.1, d) =
        dget (transformLoop evalO g.1 (evalContext g.2) [] cds) (g.1, d)) := by
  have hchar := transformFold_char evalO cds (groupByContract aggregated) []
    (groupByContract_keys_nodup aggregated) (fun g _ d => rfl)
  have hunfold : transformDimensions evalO cds aggregated =
      (groupByContract aggregated).foldl
        (fun tr g => transformLoop evalO g.1 (evalContext g.2) tr cds) [] := by
    unfold transformDimensions
    rw [if_neg hcds]
  constructor
  · intro d
    rw [hunfold, hchar.1 (c, dims) hg d]
    exact transformLoop_fails_none evalO c (evalContext dims) cds [] hfail d
  · intro g hgm hne d
    rw [hunfold]
    exact hchar.1 g hgm d

/-- C6 witness: a concrete failing formula for contract `C1` removes all of
`C1`'s derived entries while `C2` keeps its own. -/
theorem C6_witness :
    dget (transformDimensions
      (fun _ ctx => if ctx.cpu_core_hours = 4 then Except.error "boom"
        else Except.ok ctx.cpu_core_hours)
      [("derived", "cpu_core_hours")]
      [(("C1", "cpu_core_hours"), 4), (("C2", "cpu_core_hours"), 2)])
      ("C1", "derived") = none :=
  (C6_fail_closed
    (fun _ ctx => if ctx.cpu_core_hours = 4 then Except.error "boom"
      else Except.ok ctx.cpu_core_hours)
    [("derived", "cpu_core_hours")]
    [(("C1", "cpu_core_hours"), 4), (("C2", "cpu_core_hours"), 2)]
    "C1" [("cpu_core_hours", 4)] (by decide) (by decide)
    ⟨("derived", "cpu_core_hours"), by decide, by simp [failsFor, evalContext, dget]⟩).1
    "derived"

/-- C1 counterexample: the ledger-operation sequence `mark_contract_month_error`
followed by `mark_contract_month_processed` for the same entity and month
leaves the entity in both the success list and the error list —
`mark_contract_month_processed` does not remove an existing Error entry. -/
theorem C1_counterexample :
    contractInSuccess (markContractMonthProcessed
        (markContractMonthError [] "Svc:PROD:p1" "2025-01" "E1" ["boom"]
          (some "API_ERROR") (some "bad") none 0 0)
        "Svc:PROD:p1" "2025-01" "E1" 1) "Svc:PROD:p1" "2025-01" "E1" = true ∧
    contractInError (markContractMonthProcessed
        (markContractMonthError [] "Svc:PROD:p1" "2025-01" "E1" ["boom"]
          (some "API_ERROR") (some "bad") none 0 0)
        "Svc:PROD:p1" "2025-01" "E1" 1) "Svc:PROD:p1" "2025-01" "E1" = true := by
  decide

/-- C1 (amended): Success/Error exclusivity is an invariant of the
transitions the program actually performs: `remove_error_contract`, the
delivery success path (`remove_error_contract` immediately followed by
`mark_contract_month_processed`), `mark_contract_month_error` for an entity
not currently marked successful, cursor updates, whole `send_to_clazar` runs
over batches whose contracts are unresolved for the month — no Success *and*
no Error entry, exactly what `filter_success_contracts` guarantees at the
call site — and whole `retry_error_contracts` runs whose retryable entries
carry distinct contract ids.  A bare `mark_contract_month_processed` on an
entity with an Error entry is *not* among these transitions and violates
exclusivity (see the counterexample); for the same reason the
unresolved-batch condition cannot be weakened to "not already marked
successful": the dry run marks a contract processed without removing an
existing Error entry. -/
theorem C1_exclusivity (s s' : PState) (hchain : Relation.ReflTransGen ExclStep s s')
    (h : Exclusive s) : Exclusive s' := by
  induction hchain with
  | refl => exact h
  | tail hab hbc ih => exact ExclStep_preserves hbc ih

/-- C1 witness: from the empty state, recording an error for `E1` and then
resolving it through the success path keeps exclusivity. -/
theorem C1_witness :
    Exclusive (markContractMonthProcessed
      (removeErrorContract
        (markContractMonthError [] "Svc:PROD:p1" "2025-01" "E1" ["boom"]
          (some "API_ERROR") (some "bad") none 0 0)
        "Svc:PROD:p1" "2025-01" "E1" 1) "Svc:PROD:p1" "2025-01" "E1" 2) :=
  C1_exclusivity [] _
    (Relation.ReflTransGen.tail
      (Relation.ReflTransGen.single
        (ExclStep.markError [] "Svc:PROD:p1" "2025-01" "E1" ["boom"]
          (some "API_ERROR") (some "bad") none 0 0 (by decide)))
      (ExclStep.successPair _ "Svc:PROD:p1" "2025-01" "E1" 1 2))
    (by
      rintro k mk c ⟨h1, -⟩
      simp [contractInSuccess, successList, getService, dget] at h1)

/-- C10: marking a contract-month successful is idempotent — a second
identical call changes nothing but the `last_updated` timestamp — and the
success lists of every state reachable by the program's operations are
duplicate-free. -/
theorem C10_mark_processed_idempotent :
    (∀ (s : PState) (k mk c : String) (t1 t2 : Nat),
      eraseLastUpdated (markContractMonthProcessed
          (markContractMonthProcessed s k mk c t1) k mk c t2) =
        eraseLastUpdated (markContractMonthProcessed s k mk c t1)) ∧
    (∀ (M : Nat) (s : PState), Reachable M s → ∀ k mk,
      (successList s k mk).Nodup) := by
  constructor
  · intro s k mk c t1 t2
    have hc : ∀ l : List String, c ∈ (if c ∈ l then l else l ++ [c]) := by
      intro l
      by_cases h : c ∈ l <;> simp [h]
    simp [markContractMonthProcessed, getService_dset, dget_dset, dset_dset,
      eraseLastUpdated_dset, hc]
  · exact fun M s h k mk => Reachable_successNodup h k mk

/-- C10 witness: a concrete double mark equals the single mark up to
timestamps, and a concretely reached success list is duplicate-free. -/
theorem C10_witness :
    eraseLastUpdated (markContractMonthProcessed
        (markContractMonthProcessed [] "Svc:PROD:p1" "2025-01" "E1" 0)
        "Svc:PROD:p1" "2025-01" "E1" 5) =
      eraseLastUpdated (markContractMonthProcessed [] "Svc:PROD:p1" "2025-01" "E1" 0) ∧
    (successList (markContractMonthProcessed [] "Svc:PROD:p1" "2025-01" "E1" 0)
      "Svc:PROD:p1" "2025-01").Nodup :=
  ⟨C10_mark_processed_idempotent.1 [] "Svc:PROD:p1" "2025-01" "E1" 0 5,
   C10_mark_processed_idempotent.2 5 _
     (Reachable.markProcessed Reachable.init "Svc:PROD:p1" "2025-01" "E1" 0)
     "Svc:PROD:p1" "2025-01"⟩

/-- C5: in every ledger state reachable by the program's operations under a
fixed `max_retries`, every stored Error entry's retry count (default 0) is
at most `max_retries`; and `get_error_contracts_for_retry` returns exactly
the month's Error entries whose retry count (default 0 when absent) is
strictly below `max_retries`, so an entry at the bound is excluded. -/
theorem C5_retry_bound :
    (∀ (M : Nat) (s : PState), Reachable M s → ∀ k mk (e : ErrorEntry),
      e ∈ errorList s k mk → e.retry_count.getD 0 ≤ M) ∧
    (∀ (s : PState) (k mk : String) (M : Nat),
      getErrorContractsForRetry s k mk M =
        (errorList s k mk).filter (fun e => decide (e.retry_count.getD 0 < M))) ∧
    (∀ (s : PState) (k mk : String) (M : Nat) (e : ErrorEntry),
      e ∈ getErrorContractsForRetry s k mk M ↔
        e ∈ errorList s k mk ∧ e.retry_count.getD 0 < M) := by
  refine ⟨?_, ?_, ?_⟩
  · exact fun M s h k mk e he => Reachable_retryBound h k mk e he
  · exact fun s k mk M => getErrorContractsForRetry_eq s k mk M
  · intro s k mk M e
    rw [getErrorContractsForRetry_eq]
    simp [List.mem_filter]

/-- C5 witness: a run of `send_to_clazar` with `max_retries = 1` against a
dead network reaches a state whose single error entry has retry count 1 ≤ 1,
and that entry is excluded from the retryable set at the same bound. -/
theorem C5_witness :
    (⟨"E1", ["down"], some 1, some 7, some "NETWORK_ERROR", some "down",
      some ⟨[⟨"aws", "E1", "dimA", "st", "et", 5⟩]⟩⟩ :
        ErrorEntry).retry_count.getD 0 ≤ 1 ∧
    ¬(⟨"E1", ["down"], some 1, some 7, some "NETWORK_ERROR", some "down",
      some ⟨[⟨"aws", "E1", "dimA", "st", "et", 5⟩]⟩⟩ : ErrorEntry) ∈
      getErrorContractsForRetry
        (sendToClazar (fun _ _ => .netError "down") [(("E1", "dimA"), 5)] "st" "et"
          2025 1 "Svc:PROD:p1" 1 "aws" false true 7 []).2 "Svc:PROD:p1" "2025-01" 1 :=
  ⟨C5_retry_bound.1 1 _
    (Reachable.sendRun Reachable.init (fun _ _ => .netError "down")
      [(("E1", "dimA"), 5)] "st" "et" 2025 1 "Svc:PROD:p1" "aws" false true 7)
    "Svc:PROD:p1" "2025-01" _ (by decide),
   fun hmem => by
    have := (C5_retry_bound.2.2 _ "Svc:PROD:p1" "2025-01" 1 _).mp hmem
    exact absurd this.2 (by decide)⟩

/-- C3 counterexample: the legacy `send_to_clazar`
(`src/metering_processor.py`) returns `True` for a non-empty batch whose
only contract ended with a recorded Error and no Success, because it returns
`len(successful_contracts) + len(error results) > 0`. -/
theorem C3_counterexample :
    (sendToClazarLegacy (.results [⟨some "E1", none, ["bad dim"], none, none⟩])
        [(("E1", "dimA"), 5)] 2025 1 "Svc:PROD:p1" false true 0 []).1 = true ∧
    contractInError (sendToClazarLegacy
        (.results [⟨some "E1", none, ["bad dim"], none, none⟩])
        [(("E1", "dimA"), 5)] 2025 1 "Svc:PROD:p1" false true 0 []).2
      "Svc:PROD:p1" "2025-01" "E1" = true ∧
    contractInSuccess (sendToClazarLegacy
        (.results [⟨some "E1", none, ["bad dim"], none, none⟩])
        [(("E1", "dimA"), 5)] 2025 1 "Svc:PROD:p1" false true 0 []).2
      "Svc:PROD:p1" "2025-01" "E1" = false := by
  decide

/-- C3 (amended): for the maintained `send_to_clazar`
(`src/src/metering_processor.py`), given a non-empty batch whose contracts
are not already recorded successful (as `filter_success_contracts`
guarantees at the call site), the function returns true if and only if every
contract of the batch is recorded successful in the resulting state; in
particular a contract exhausting its attempts with a permanent Error makes
it return false.  The legacy variant instead returns true whenever at least
one contract was handled, even with errors recorded. -/
theorem C3_send_result (resp : NetOracle) (batch : Dict (String × String) Int)
    (st et : String) (y mo : Nat) (sk : String) (M : Nat) (cloud : String)
    (dry tok : Bool) (t : Nat) (s : PState)
    (hne : ¬batch.isEmpty = true)
    (hun : ∀ cid ∈ (contractRecords cloud st et batch).map Prod.fst,
      contractInSuccess s sk (getMonthKey y mo) cid = false) :
    (sendToClazar resp batch st et y mo sk M cloud dry tok t s).1 = true ↔
      ∀ cid ∈ (contractRecords cloud st et batch).map Prod.fst,
        contractInSuccess (sendToClazar resp batch st et y mo sk M cloud dry tok t s).2
          sk (getMonthKey y mo) cid = true := by
  unfold sendToClazar
  rw [if_neg hne]
  by_cases htok : (!tok && !dry) = true
  · rw [if_pos htok]
    cases hcrs : contractRecords cloud st et batch with
    | nil => exact absurd hcrs (contractRecords_ne_nil cloud st et batch hne)
    | cons cr rest =>
      rw [hcrs] at hun
      constructor
      · intro hfalse
        exact absurd hfalse (by simp)
      · intro hall
        have h1 := hall cr.1 (List.mem_map_of_mem Prod.fst (List.mem_cons_self cr rest))
        have h2 : contractInSuccess ((false, s) : Bool × PState).2 sk (getMonthKey y mo)
            cr.1 = false :=
          hun cr.1 (List.mem_map_of_mem Prod.fst (List.mem_cons_self cr rest))
        rw [h1] at h2
        exact absurd h2 (by decide)
  · rw [if_neg htok]
    have hspec := sendContractsLoop_spec resp M sk (getMonthKey y mo) dry t
      (contractRecords cloud st et batch) (true, s)
      (fun cr hmem => hun cr.1 (List.mem_map_of_mem Prod.fst hmem))
      (contractRecords_keys_nodup cloud st et batch)
    rw [hspec]
    constructor
    · rintro ⟨-, h2⟩
      exact fun cid hcid => by
        rcases List.mem_map.mp hcid with ⟨cr, hmem, rfl⟩
        exact h2 cr hmem
    · intro hall
      exact ⟨rfl, fun cr hmem =>
        hall cr.1 (List.mem_map_of_mem Prod.fst hmem)⟩

/-- C3 witness: a concrete one-contract batch that succeeds immediately
makes `send_to_clazar` return true. -/
theorem C3_witness :
    (sendToClazar (fun _ _ => .results [⟨some "E1", some "success", [], none, none⟩])
      [(("E1", "dimA"), 5)] "st" "et" 2025 1 "Svc:PROD:p1" 5 "aws" false true 0
      []).1 = true :=
  (C3_send_result (fun _ _ => .results [⟨some "E1", some "success", [], none, none⟩])
    [(("E1", "dimA"), 5)] "st" "et" 2025 1 "Svc:PROD:p1" 5 "aws" false true 0 []
    (by decide) (by decide)).mpr (by decide)

/-- C7 counterexample: when every custom-dimension transformation fails,
`process_month` returns `False` even though nothing remains after aggregation
and filtering and phase A (the retry pass) returned `True` — instead of
returning phase A's result as the claim states.  Here phase A succeeds (no
stored errors), the single usage record's derived dimension fails to
evaluate, the transformed aggregation and hence the filtered data are empty,
yet `process_month` returns `False`. -/
theorem C7_counterexample :
    retryErrorContracts (fun _ _ => ApiResponse.netError "x") [] "Svc:PROD:p1" 2025 1 3
      false 0 = (true, []) ∧
    filterSuccessContracts
      (retryErrorContracts (fun _ _ => ApiResponse.netError "x") [] "Svc:PROD:p1" 2025 1 3
        false 0).2 "Svc:PROD:p1" (getMonthKey 2025 1)
      (transformDimensions (fun _ _ => Except.error "boom") [("d", "f")]
        (aggregateUsageData [⟨some "E1", some "dimA", 5⟩])) = [] ∧
    (processMonth (fun _ _ => ApiResponse.netError "x") (fun _ _ => ApiResponse.netError "x")
      (fun _ _ => Except.error "boom") [("d", "f")] [[⟨some "E1", some "dimA", 5⟩]]
      [] "Svc:PROD:p1" 2025 1 3 "aws" false true 0).1 = false := by
  decide

/-- C7 (amended): `process_month` first runs phase A (retrying the stored
retryable errors); with no subscription files or no usage records it returns
exactly phase A's result; when custom dimensions are configured and the
transformation empties the aggregation it returns `False` paired with phase
A's state (regardless of phase A's result); otherwise, if nothing remains
after filtering out already-resolved contracts it returns phase A's result,
and else it submits the remainder (phase B) and returns the conjunction of
phase A's and phase B's results. -/
theorem C7_process_month_phases (retryResp sendResp : NetOracle) (evalO : EvalOracle)
    (cds : Dict String String) (files : List (List UsageRecord)) (s : PState)
    (sk : String) (y mo M : Nat) (cloud : String) (dry tok : Bool) (t : Nat)
    (r retry : Bool × PState) (aggData filtered : Dict (String × String) Int)
    (hr : r = processMonth retryResp sendResp evalO cds files s sk y mo M cloud dry tok t)
    (hretry : retry = retryErrorContracts retryResp s sk y mo M dry t)
    (hagg : aggData = if !cds.isEmpty then
        transformDimensions evalO cds (aggregateUsageData files.flatten)
      else aggregateUsageData files.flatten)
    (hfil : filtered = filterSuccessContracts retry.2 sk (getMonthKey y mo) aggData) :
    (files.isEmpty = true ∨ files.flatten.isEmpty = true → r = retry) ∧
    (files.isEmpty = false → files.flatten.isEmpty = false →
      ((!cds.isEmpty ∧ aggData.isEmpty) → r = (false, retry.2)) ∧
      (¬(!cds.isEmpty ∧ aggData.isEmpty) →
        (filtered.isEmpty = true → r = retry) ∧
        (filtered.isEmpty = false →
          r = (retry.1 && (sendToClazar sendResp filtered (isoMonthStart y mo)
                (isoMonthEnd y mo) y mo sk M cloud dry tok t retry.2).1,
              (sendToClazar sendResp filtered (isoMonthStart y mo)
                (isoMonthEnd y mo) y mo sk M cloud dry tok t retry.2).2)))) := by
  subst hr
  subst hfil
  subst hagg
  subst hretry
  simp only [processMonth]
  constructor
  · rintro (h | h)
    · rw [if_pos h]
    · by_cases hf : files.isEmpty = true
      · rw [if_pos hf]
      · rw [if_neg hf, if_pos h]
  · intro hf hrr
    have hf' : ¬files.isEmpty = true := by simp [hf]
    have hrr' : ¬files.flatten.isEmpty = true := by simp [hrr]
    rw [if_neg hf', if_neg hrr']
    constructor
    · intro hc
      rw [if_pos hc]
    · intro hc
      rw [if_neg hc]
      constructor
      · intro hfe
        rw [if_pos hfe]
      · intro hfe
        rw [if_neg (ne_true_of_eq_false hfe)]

/-- C7 witness: with no subscription files at all, `process_month` returns
exactly what the retry pass returned. -/
theorem C7_witness :
    processMonth (fun _ _ => ApiResponse.netError "x") (fun _ _ => ApiResponse.netError "x")
      (fun _ _ => Except.error "e") [] [] [] "Svc:PROD:p1" 2025 1 3 "aws" false true 0 =
    retryErrorContracts (fun _ _ => ApiResponse.netError "x") [] "Svc:PROD:p1" 2025 1 3
      false 0 :=
  (C7_process_month_phases (fun _ _ => ApiResponse.netError "x")
    (fun _ _ => ApiResponse.netError "x") (fun _ _ => Except.error "e") [] [] []
    "Svc:PROD:p1" 2025 1 3 "aws" false true 0
    (processMonth (fun _ _ => ApiResponse.netError "x") (fun _ _ => ApiResponse.netError "x")
      (fun _ _ => Except.error "e") [] [] [] "Svc:PROD:p1" 2025 1 3 "aws" false true 0)
    (retryErrorContracts (fun _ _ => ApiResponse.netError "x") [] "Svc:PROD:p1" 2025 1 3
      false 0)
    [] [] rfl rfl (by decide) (by decide)).1 (Or.inl rfl)

/-- C2: cursor safety for `process_next_month`: when the run reports failure
the cursor is unchanged, and whenever the stored last-processed month changes
the run reported success and the new cursor is exactly the month that
`get_next_month_to_process` returned; that month strictly succeeds the
previous cursor (when one existed) and never exceeds the watermark month, so
the cursor never decreases and never passes the watermark. -/
theorem C2_cursor_safety (retryResp sendResp : NetOracle) (evalO : EvalOracle)
    (cds : Dict String String) (filesOf : Nat → Nat → List (List UsageRecord))
    (s : PState) (u : UsageState) (sk : String) (M : Nat) (start : Nat × Nat)
    (cloud : String) (dry tok : Bool) (t : Nat) (r : Bool × PState)
    (hr : r = processNextMonth retryResp sendResp evalO cds filesOf s u sk M start
      cloud dry tok t) :
    (r.1 = false → getLastProcessedMonth r.2 sk = getLastProcessedMonth s sk) ∧
    (getLastProcessedMonth r.2 sk ≠ getLastProcessedMonth s sk →
      r.1 = true ∧
      ∃ nm, getNextMonthToProcess s u sk start = some nm ∧
        getLastProcessedMonth r.2 sk = some nm ∧
        (∀ w, getLatestMonthWithCompleteUsageData u sk = some w → monthLe nm w) ∧
        (∀ prev, getLastProcessedMonth s sk = some prev → monthLt prev nm)) := by
  subst hr
  simp only [processNextMonth]
  cases hn : getNextMonthToProcess s u sk start with
  | none =>
    dsimp only
    exact ⟨fun _ => rfl, fun hne => absurd rfl hne⟩
  | some nm =>
    obtain ⟨ny, nmo⟩ := nm
    dsimp only
    have hcur : getLastProcessedMonth (processMonth retryResp sendResp evalO cds
        (filesOf ny nmo) s sk ny nmo M cloud dry tok t).2 sk =
        getLastProcessedMonth s sk := by
      rw [getLastProcessedMonth_eq_cursor, getLastProcessedMonth_eq_cursor,
        cursorStr_processMonth]
    by_cases h1 : (processMonth retryResp sendResp evalO cds (filesOf ny nmo) s sk ny nmo
        M cloud dry tok t).1 = true
    · rw [if_pos h1]
      constructor
      · intro hfalse
        dsimp only at hfalse
        rw [h1] at hfalse
        exact absurd hfalse (by decide)
      · intro hne
        have hns := getNextMonthToProcess_some s u sk start (ny, nmo) hn
        refine ⟨h1, (ny, nmo), rfl, ?_, hns.1, hns.2⟩
        dsimp only
        rw [getLastProcessedMonth_eq_cursor, cursorStr_updateLastProcessedMonth,
          if_pos rfl]
        dsimp only
        rw [getMonthKey_data_not_empty, if_neg Bool.false_ne_true]
        exact parseMonthKey_getMonthKey ny nmo
    · rw [if_neg h1]
      exact ⟨fun _ => hcur, fun hne => absurd hcur hne⟩

/-- C2 witness: starting from an empty state with a watermark of `2025-02`,
`process_next_month` succeeds on the default start month `2025-01`. -/
theorem C2_witness :
    (processNextMonth (fun _ _ => ApiResponse.netError "x")
      (fun _ _ => ApiResponse.netError "x") (fun _ _ => Except.error "e") []
      (fun _ _ => []) [] [("Svc:PROD:p1", ⟨some ⟨2025, 3, 15, 0, 0, 0⟩⟩)]
      "Svc:PROD:p1" 3 (2025, 1) "aws" false true 0).1 = true :=
  ((C2_cursor_safety (fun _ _ => ApiResponse.netError "x")
    (fun _ _ => ApiResponse.netError "x") (fun _ _ => Except.error "e") []
    (fun _ _ => []) [] [("Svc:PROD:p1", ⟨some ⟨2025, 3, 15, 0, 0, 0⟩⟩)]
    "Svc:PROD:p1" 3 (2025, 1) "aws" false true 0
    (processNextMonth (fun _ _ => ApiResponse.netError "x")
      (fun _ _ => ApiResponse.netError "x") (fun _ _ => Except.error "e") []
      (fun _ _ => []) [] [("Svc:PROD:p1", ⟨some ⟨2025, 3, 15, 0, 0, 0⟩⟩)]
      "Svc:PROD:p1" 3 (2025, 1) "aws" false true 0)
    rfl).2 (by decide)).1

end Metering
